import Mathlib

/-!
Verification of the PDF-text cleanup and segmentation pipeline of this
repository (sources: `complete_pdf_processor.py`, `pdf_header_remover.py`,
`pdf_to_txt_advanced.py`, `text_formatter.py`).

Text is modelled as `List Char` (one entry per Unicode code point, matching
Python's `str` indexing and `len`).  Each Python function used by a claim is
embedded as an executable Lean definition that follows the source line by
line; regular-expression substitutions are embedded as deterministic scanners
that reproduce `re.sub` / `re.match` leftmost, non-overlapping semantics for
the concrete patterns appearing in the source.
-/

set_option maxRecDepth 10000

abbrev Line := List Char

/-! ## Python string primitives -/

/-- Characters Python's `str.strip()` / `str.split()` treat as whitespace
(the ASCII whitespace plus the Unicode space separators relevant here). -/
def isPyWs (c : Char) : Bool :=
  c = ' ' ∨ c = '\t' ∨ c = '\n' ∨ c = '\r' ∨ c = '\x0b' ∨ c = '\x0c' ∨
  c = '\x1c' ∨ c = '\x1d' ∨ c = '\x1e' ∨ c = '\x1f' ∨ c = '\x85' ∨
  c = ' ' ∨ c = ' ' ∨ c = ' ' ∨ c = ' ' ∨ c = ' ' ∨
  c = ' ' ∨ c = ' ' ∨ c = ' ' ∨ c = ' ' ∨ c = ' ' ∨
  c = ' ' ∨ c = ' ' ∨ c = ' ' ∨ c = ' ' ∨ c = ' ' ∨
  c = ' ' ∨ c = ' ' ∨ c = '　'

/-- Python `str.lstrip()`. -/
def pyLstrip (l : Line) : Line := l.dropWhile isPyWs

/-- Python `str.rstrip()`. -/
def pyRstrip (l : Line) : Line := (l.reverse.dropWhile isPyWs).reverse

/-- Python `str.strip()`. -/
def pyStrip (l : Line) : Line := pyRstrip (pyLstrip l)

/-- Python decimal digits as used by `\d` on the inputs at hand
(ASCII digits; the sources only ever meet ASCII digits). -/
def isPyDigit (c : Char) : Bool := '0' ≤ c ∧ c ≤ '9'

/-- Split on a single character, Python `str.split(sep)` (keeps empty parts). -/
def splitCh (sep : Char) : Line → List Line
  | [] => [[]]
  | c :: rest =>
    let r := splitCh sep rest
    if c = sep then [] :: r else (c :: r.headD []) :: r.tail

/-- Join with a single character, inverse of `splitCh`. -/
def joinCh (sep : Char) : List Line → Line
  | [] => []
  | [l] => l
  | l :: rest => l ++ sep :: joinCh sep rest

/-- Python `str.split('\n')`. -/
def splitNl (l : Line) : List Line := splitCh '\n' l

/-- Python `'\n'.join(...)`. -/
def joinNl (ls : List Line) : Line := joinCh '\n' ls

/-- Substring containment, Python's `sub in s`. -/
def containsSub (sub : Line) : Line → Bool
  | [] => sub.isEmpty
  | c :: rest => sub.isPrefixOf (c :: rest) || containsSub sub rest

/-- The `lines[-n:]` in Python. -/
def lastN (n : Nat) (l : List α) : List α := l.drop (l.length - n)

/-! ## Regex-shaped matchers used by the classifiers

Each `re.match` in the sources uses an anchored pattern made of whitespace
runs, digit runs, fixed literals and single-character classes whose greedy
munches are all deterministic (no class overlaps its follower), so each is
embedded as a deterministic prefix matcher. -/

/-- The `\s*`. -/
def munchWs (l : Line) : Line := l.dropWhile isPyWs

/-- The `\d+` (at least one digit), returning the rest on success. -/
def digits1 : Line → Option Line
  | l => if (l.takeWhile isPyDigit).isEmpty then none else some (l.dropWhile isPyDigit)

/-- A single character satisfying `p`. -/
def expectCh (p : Char → Bool) : Line → Option Line
  | [] => none
  | c :: r => if p c then some r else none

/-- A fixed literal. -/
def expectLit (s : Line) (l : Line) : Option Line :=
  if s.isPrefixOf l then some (l.drop s.length) else none

/-- The `\s+` (at least one whitespace character). -/
def ws1 : Line → Option Line
  | [] => none
  | c :: r => if isPyWs c then some (munchWs r) else none

/-- The `$` for the stripped inputs at hand (end of string). -/
def atEnd : Line → Bool
  | [] => true
  | _ :: _ => false

/-- The hyphens of the sources' page-number patterns: `[-‐]`. -/
def isDash (c : Char) : Bool := c = '-' ∨ c = '‐'

/-- The `^\s*\d+\s*$` — a bare page-number line. -/
def matchBareNum (l : Line) : Bool :=
  match digits1 (munchWs l) with
  | some r => atEnd (munchWs r)
  | none => false

/-- The `^\s*[-‐]\s*\d+\s*[-‐]\s*$`. -/
def matchDashNum (l : Line) : Bool :=
  match expectCh isDash (munchWs l) with
  | none => false
  | some r =>
    match digits1 (munchWs r) with
    | none => false
    | some r2 =>
      match expectCh isDash (munchWs r2) with
      | none => false
      | some r3 => atEnd (munchWs r3)

/-- The `^\s*\[\s*\d+\s*\]\s*$`. -/
def matchBracketNum (l : Line) : Bool :=
  match expectCh (· = '[') (munchWs l) with
  | none => false
  | some r =>
    match digits1 (munchWs r) with
    | none => false
    | some r2 =>
      match expectCh (· = ']') (munchWs r2) with
      | none => false
      | some r3 => atEnd (munchWs r3)

/-- The `^\s*\(\s*\d+\s*\)\s*$`. -/
def matchParenNum (l : Line) : Bool :=
  match expectCh (· = '(') (munchWs l) with
  | none => false
  | some r =>
    match digits1 (munchWs r) with
    | none => false
    | some r2 =>
      match expectCh (· = ')') (munchWs r2) with
      | none => false
      | some r3 => atEnd (munchWs r3)

/-- The `^P\.\s*\d+` (and its lower-case twin via the parameter). -/
def matchPDotNum (p : Char) (l : Line) : Bool :=
  match expectLit [p, '.'] l with
  | none => false
  | some r => (digits1 (munchWs r)).isSome

/-- The `^\d+\s*ページ`. -/
def matchNumPage (l : Line) : Bool :=
  match digits1 l with
  | none => false
  | some r => (expectLit ['ペ', 'ー', 'ジ'] (munchWs r)).isSome

/-- The `^ページ\s*\d+`. -/
def matchPageNum (l : Line) : Bool :=
  match expectLit ['ペ', 'ー', 'ジ'] l with
  | none => false
  | some r => (digits1 (munchWs r)).isSome

/-- Kanji numerals and digits: the class `[一二三四五六七八九十\d]`. -/
def isKanjiNumDigit (c : Char) : Bool :=
  c = '一' ∨ c = '二' ∨ c = '三' ∨ c = '四' ∨ c = '五' ∨ c = '六' ∨ c = '七' ∨
  c = '八' ∨ c = '九' ∨ c = '十' ∨ isPyDigit c

/-- The `^第[一二三四五六七八九十\d]+X` for a suffix character `X` (章/節/部);
deterministic because the suffix is not in the repeated class. -/
def matchDaiSuffix (suf : Char) (l : Line) : Bool :=
  match l with
  | '第' :: r =>
    decide ¬(r.takeWhile isKanjiNumDigit).isEmpty &&
      (match r.dropWhile isKanjiNumDigit with
       | c :: _ => c = suf
       | [] => false)
  | _ => false

/-- The `^\d+\.\d+` (e.g. `1.1`, `2.3`). -/
def matchNumDotNum (l : Line) : Bool :=
  match digits1 l with
  | none => false
  | some r =>
    match expectCh (· = '.') r with
    | none => false
    | some r2 => (digits1 r2).isSome

/-- The `^\d+X` for a suffix character `X` (章/節). -/
def matchNumSuffix (suf : Char) (l : Line) : Bool :=
  match digits1 l with
  | none => false
  | some r =>
    match r with
    | c :: _ => c = suf
    | [] => false

/-- The `^Word\s+\d+` for a literal word (Chapter/Section/Part). -/
def matchWordNum (w : Line) (l : Line) : Bool :=
  match expectLit w l with
  | none => false
  | some r =>
    match ws1 r with
    | none => false
    | some r2 => (digits1 r2).isSome

/-! ## `complete_pdf_processor.is_sidebar_title` -/

/-- The keyword list of `is_sidebar_title` (`complete_pdf_processor.py:55`). -/
def sidebarKeywords : List Line :=
  [['第'], ['章'], ['節'], ['部'],
   "Chapter".toList, "Section".toList, "Part".toList,
   ['編'], ['項'], ['条'], ['款'], ['号']]

/-- The `page_patterns` list of `is_sidebar_title`
(`complete_pdf_processor.py:67`). -/
def sidebarPagePatterns : List (Line → Bool) :=
  [matchDashNum, matchBracketNum, matchParenNum,
   matchPDotNum 'P', matchPDotNum 'p', matchNumPage, matchPageNum]

/-- The `is_sidebar_title` from `complete_pdf_processor.py:49`. -/
def isSidebarTitle (line : Line) : Bool :=
  let l := pyStrip line
  if l.length ≤ 30 && sidebarKeywords.any (fun k => containsSub k l) then true
  else if matchBareNum l then true
  else if sidebarPagePatterns.any (fun m => m l) then true
  else false

/-! ## `pdf_header_remover.HeaderFooterRemover.is_chapter_title` -/

/-- The `chapter_patterns` regex list from `pdf_header_remover.py:18`. -/
def chapterPatterns : List (Line → Bool) :=
  [matchDaiSuffix '章', matchDaiSuffix '節', matchDaiSuffix '部',
   matchNumDotNum, matchNumSuffix '章', matchNumSuffix '節',
   matchWordNum "Chapter".toList, matchWordNum "Section".toList,
   matchWordNum "Part".toList,
   matchBareNum, matchDashNum, matchBracketNum, matchParenNum,
   matchPDotNum 'P', matchPDotNum 'p', matchNumPage, matchPageNum]

/-- The keyword list of `is_chapter_title` (`pdf_header_remover.py:97`). -/
def chapterKeywords : List Line :=
  [['章'], ['節'], ['部'], "Chapter".toList, "Section".toList, "Part".toList]

/-- The `is_chapter_title` from `pdf_header_remover.py:84`. -/
def isChapterTitle (line : Line) : Bool :=
  let l := pyStrip line
  if chapterPatterns.any (fun m => m l) then true
  else if l.length < 30 && chapterKeywords.any (fun k => containsSub k l) then true
  else false

/-! ## Boilerplate detectors

Pages/files are modelled as lists of lines.  The Python `set` of candidate
lines per file is modelled by `List.dedup` (order is irrelevant: only
membership and once-per-file counting are used).  The fractional thresholds
`total * 0.4` and `total * 0.5` are modelled exactly as the rationals
`2n/5` and `n/2` (`count ≥ 2n/5  ⟺  5·count ≥ 2n`); Python's binary
float `0.4` differs from `2/5` by less than `1e-16`, which cannot change
any comparison used by the claims settled here (they instantiate one file). -/

/-- Candidate set of one file: first five plus last five lines, stripped,
kept when non-empty and shorter than 150 chars, deduplicated
(`complete_pdf_processor.detect_repeated_patterns`, lines 28-37). -/
def uniqueLinesCPP (file : List Line) : List Line :=
  ((file.take 5 ++ lastN 5 file).filterMap (fun line =>
    let c := pyStrip line
    if c ≠ [] ∧ c.length < 150 then some c else none)).dedup

/-- Occurrence count of a candidate across the file set: one per file that
contains it in its candidate set. -/
def cppCount (files : List (List Line)) (s : Line) : Nat :=
  (files.map (fun f => (uniqueLinesCPP f).count s)).sum

/-- The keys of the `line_counter` built by
`complete_pdf_processor.detect_repeated_patterns`. -/
def cppCandidates (files : List (List Line)) : List Line :=
  (files.map uniqueLinesCPP).flatten.dedup

/-- The `detect_repeated_patterns` from `complete_pdf_processor.py:19`:
keep candidates with `count >= max(2, total_files * 0.4)`. -/
def detectRepeatedPatternsCPP (files : List (List Line)) : List Line :=
  (cppCandidates files).filter
    (fun s => 2 ≤ cppCount files s ∧ 2 * files.length ≤ 5 * cppCount files s)

/-- Candidate set of one file for `pdf_header_remover.detect_repeated_lines`
(first five and last five lines, stripped, non-empty, shorter than 100). -/
def uniqueLinesHFR (file : List Line) : List Line :=
  ((file.take 5 ++ lastN 5 file).filterMap (fun line =>
    let c := pyStrip line
    if c ≠ [] ∧ c.length < 100 then some c else none)).dedup

/-- Once-per-file occurrence count for `detect_repeated_lines`. -/
def hfrCount (files : List (List Line)) (s : Line) : Nat :=
  (files.map (fun f => (uniqueLinesHFR f).count s)).sum

/-- The counter keys of `detect_repeated_lines`. -/
def hfrCandidates (files : List (List Line)) : List Line :=
  (files.map uniqueLinesHFR).flatten.dedup

/-- The `detect_repeated_lines` from `pdf_header_remover.py:43`: keep candidates
with `count >= total_files * 0.4` (no lower floor of 2). -/
def detectRepeatedLinesHFR (files : List (List Line)) : List Line :=
  (hfrCandidates files).filter (fun s => 2 * files.length ≤ 5 * hfrCount files s)

/-! ### `pdf_to_txt_advanced.AdvancedPDFExtractor` -/

/-- The `re.sub(r'\d+', '[NUM]', text)` as a state machine over the characters
(the flag records being inside a digit run, which is emitted as one
`[NUM]` when it starts).  Structural, so the kernel can evaluate it. -/
def subNumGo (inRun : Bool) : Line → Line
  | [] => []
  | c :: rest =>
    if isPyDigit c then
      if inRun then subNumGo true rest
      else '[' :: 'N' :: 'U' :: 'M' :: ']' :: subNumGo true rest
    else c :: subNumGo false rest

/-- The `re.sub(r'\d+', '[NUM]', text)`: replace every maximal digit run. -/
def subNum (l : Line) : Line := subNumGo false l

/-- The `\d{4}` — exactly four digits. -/
def d4 (l : Line) : Option Line :=
  match l with
  | a :: b :: c :: d :: r =>
    if isPyDigit a && isPyDigit b && isPyDigit c && isPyDigit d then some r else none
  | _ => none

/-- The `\d{1,2}` followed by a separator from `sep` (greedy with the regex's
backtracking: two digits if the separator follows, else one digit). -/
def md2 (sep : Char → Bool) (l : Line) : Option Line :=
  match l with
  | e :: f :: r =>
    if isPyDigit e && isPyDigit f then expectCh sep r
    else if isPyDigit e then expectCh sep (f :: r)
    else none
  | _ => none

/-- The `日?` — optionally consume a trailing 日. -/
def optNichi : Line → Line
  | '日' :: r => r
  | r => r

/-- The `\d{1,2}日?` at the end of the date pattern (greedy, no follower). -/
def dayPart (l : Line) : Option Line :=
  match l with
  | e :: f :: r =>
    if isPyDigit e && isPyDigit f then some (optNichi r)
    else if isPyDigit e then some (optNichi (f :: r))
    else none
  | [e] => if isPyDigit e then some [] else none
  | [] => none

/-- One attempt of the full date pattern (four digits, a year separator,
one or two digits, a month separator, one or two digits, optional 日)
at the head of the input. -/
def matchDate (l : Line) : Option Line :=
  (d4 l).bind (expectCh (fun x => x = '年' ∨ x = '/' ∨ x = '-')) |>.bind
    (md2 (fun x => x = '月' ∨ x = '/' ∨ x = '-')) |>.bind dayPart

/-- The `re.sub` of the date pattern, by fuel on the input length: each
successful match consumes at least seven characters and each failure one,
so fuel `l.length` never runs out. -/
def subDateF : Nat → Line → Line
  | 0, l => l
  | _ + 1, [] => []
  | fuel + 1, c :: rest =>
    match matchDate (c :: rest) with
    | some r => '[' :: 'D' :: 'A' :: 'T' :: 'E' :: ']' :: subDateF fuel r
    | none => c :: subDateF fuel rest

/-- The `re.sub` of the date pattern with replacement `[DATE]`. -/
def subDate (l : Line) : Line := subDateF l.length l

/-- Helper of `pySplitWords`: `cur` is the reversed word being read. -/
def pySplitWordsGo (cur : Line) : Line → List Line
  | [] => if cur.isEmpty then [] else [cur.reverse]
  | c :: rest =>
    if isPyWs c then
      if cur.isEmpty then pySplitWordsGo [] rest
      else cur.reverse :: pySplitWordsGo [] rest
    else pySplitWordsGo (c :: cur) rest

/-- Python `str.split()` with no argument: words separated by whitespace
runs, with no empty words. -/
def pySplitWords (l : Line) : List Line := pySplitWordsGo [] l

/-- The `normalize_for_comparison` from `pdf_to_txt_advanced.py:94`: digit runs
to `[NUM]`, then the (by then unmatchable) date pattern to `[DATE]`, then
`' '.join(text.split())`. -/
def normalizeForComparison (t : Line) : Line :=
  joinCh ' ' (pySplitWords (subDate (subNum t)))

/-- The candidate window of one page: `lines[:3] + lines[-3:]`
(no per-page deduplication — `pdf_to_txt_advanced.py:77`). -/
def advWindow (lines : List Line) : List Line := lines.take 3 ++ lastN 3 lines

/-- The normalized signatures a page feeds into the counter, one entry per
window occurrence (`pdf_to_txt_advanced.py:77-82`). -/
def advSigs (lines : List Line) : List Line :=
  (advWindow lines).filterMap (fun line =>
    if line ≠ [] ∧ (pyStrip line).length > 0 then
      (let n := normalizeForComparison (pyStrip line)
       if n ≠ [] then some n else none)
    else none)

/-- The `line_counter[normalized]` summed over all pages. -/
def advCount (pages : List (List Line)) (s : Line) : Nat :=
  (pages.map (fun p => (advSigs p).count s)).sum

/-- The `detect_repeated_patterns` from `pdf_to_txt_advanced.py:64`: signatures
occurring with `count >= total_pages * 0.5`. -/
def advRepeated (pages : List (List Line)) : List Line :=
  ((pages.map advSigs).flatten.dedup).filter
    (fun s => pages.length ≤ 2 * advCount pages s)

/-- Number of pages whose first three lines contain the signature
(`identify_header_footer_patterns`, top loop with `break`). -/
def occTop (pages : List (List Line)) (pat : Line) : Nat :=
  (pages.filter (fun lines =>
    lines ≠ [] && (lines.take 3).any
      (fun l => normalizeForComparison (pyStrip l) == pat))).length

/-- Number of pages whose last three lines contain the signature. -/
def occBottom (pages : List (List Line)) (pat : Line) : Nat :=
  (pages.filter (fun lines =>
    lines ≠ [] && (lastN 3 lines).any
      (fun l => normalizeForComparison (pyStrip l) == pat))).length

/-- The `headers` list of `identify_header_footer_patterns`
(`pdf_to_txt_advanced.py:110-148`): qualifying signatures seen strictly more
often near the top. -/
def headersOf (pages : List (List Line)) : List Line :=
  (advRepeated pages).filter (fun p => occBottom pages p < occTop pages p)

/-- The `footers` list: all other qualifying signatures (ties included). -/
def footersOf (pages : List (List Line)) : List Line :=
  (advRepeated pages).filter (fun p => ¬ occBottom pages p < occTop pages p)

def samplePages : List (List Line) :=
  [["報告書 2024".toList, "ことばあ".toList, "ことばい".toList, "ことばう".toList,
    "ことばえ".toList, "ことばお".toList, "- 1 -".toList],
   ["報告書 2024".toList, "たんごあ".toList, "たんごい".toList, "たんごう".toList,
    "たんごえ".toList, "たんごお".toList, "- 2 -".toList],
   ["報告書 2024".toList, "ぶんあ".toList, "ぶんい".toList, "ぶんう".toList,
    "ぶんえ".toList, "ぶんお".toList, "- 3 -".toList]]

/-! ## `text_formatter.TextFormatter` — whitespace passes

The `re.sub` cascades of `clean_text` and `remove_meaningless_spaces` are
embedded as structural state machines so the kernel can evaluate them.  The
pair substitutions (`X +Y` patterns) rely on the fact that none of the
character classes used for `X`/`Y` contains the half-width space, so a
failed match can only resume at the next non-space character — exactly what
the pending-state machine does. -/

/-- The zero-width/invisible characters removed by `clean_text`
(`text_formatter.py:46`). -/
def isInvisible (c : Char) : Bool :=
  c = '​' ∨ c = '‌' ∨ c = '‍' ∨ c = '⁠' ∨ c = '﻿'

/-- The class `[ぁ-ゔァ-ヶー一-龠々〆〇]` (Japanese script incl. iteration
marks) of `text_formatter.py:75` and `:136`. -/
def isJp1 (c : Char) : Bool :=
  ('ぁ' ≤ c ∧ c ≤ 'ゔ') ∨ ('ァ' ≤ c ∧ c ≤ 'ヶ') ∨ c = 'ー' ∨
  ('一' ≤ c ∧ c ≤ '龠') ∨ c = '々' ∨ c = '〆' ∨ c = '〇'

/-- The narrower class `[ぁ-ゔァ-ヶー一-龠]` of `text_formatter.py:139-140`. -/
def isJp2 (c : Char) : Bool :=
  ('ぁ' ≤ c ∧ c ≤ 'ゔ') ∨ ('ァ' ≤ c ∧ c ≤ 'ヶ') ∨ c = 'ー' ∨ ('一' ≤ c ∧ c ≤ '龠')

/-- Closers of `clean_text` line 69: `[。、！？）」』】\)]`. -/
def closers1 : List Char := ['。', '、', '！', '？', '）', '」', '』', '】', ')']

/-- Openers of `clean_text` line 70: `[（「『【\(]`. -/
def openers1 : List Char := ['（', '「', '『', '【', '(']

/-- Closers of `remove_meaningless_spaces` line 139: `[。、！？」』）】]`. -/
def closers2 : List Char := ['。', '、', '！', '？', '」', '』', '）', '】']

/-- Openers of `remove_meaningless_spaces` line 140: `[「『（【]`. -/
def openers2 : List Char := ['「', '『', '（', '【']

/-- Unit/counter characters of `remove_meaningless_spaces` line 143:
`[年月日時分秒円個本枚冊]`. -/
def unitChars : List Char := ['年', '月', '日', '時', '分', '秒', '円', '個', '本', '枚', '冊']

/-- The `re.sub(r' {2,}', ' ', ...)`: collapse each run of half-width spaces to
one (runs of length one are untouched, longer runs become one space; the
flag records being inside a run). -/
def collapseSpacesGo (inRun : Bool) : Line → Line
  | [] => []
  | c :: rest =>
    if c = ' ' then
      if inRun then collapseSpacesGo true rest
      else ' ' :: collapseSpacesGo true rest
    else c :: collapseSpacesGo false rest

/-- The space-run collapsing of the formatter passes. -/
def collapseSpaces (l : Line) : Line := collapseSpacesGo false l

/-- The `re.sub(r' ([。、！？）」』】\)])', r'\1', ...)` — drop a single space
standing right before a closer; the flag is a pending unemitted space. -/
def subSpaceCloserGo (pendSp : Bool) : Line → Line
  | [] => if pendSp then [' '] else []
  | c :: rest =>
    if pendSp then
      if closers1.contains c then c :: subSpaceCloserGo false rest
      else if c = ' ' then ' ' :: subSpaceCloserGo true rest
      else ' ' :: c :: subSpaceCloserGo false rest
    else if c = ' ' then subSpaceCloserGo true rest
    else c :: subSpaceCloserGo false rest

/-- The space-before-closer substitution of `clean_text` (line 69). -/
def subSpaceCloser (l : Line) : Line := subSpaceCloserGo false l

/-- The `re.sub(r'([（「『【\(]) ', r'\1', ...)` — drop a single space right
after an opener; the flag records that the previous character was an opener
whose following space is still deletable. -/
def subOpenerSpaceGo (prevOpener : Bool) : Line → Line
  | [] => []
  | c :: rest =>
    if prevOpener ∧ c = ' ' then subOpenerSpaceGo false rest
    else c :: subOpenerSpaceGo (openers1.contains c) rest

/-- The space-after-opener substitution of `clean_text` (line 70). -/
def subOpenerSpace (l : Line) : Line := subOpenerSpaceGo false l

/-- Generic `re.sub(r'(X) +(Y)', r'\1\2', ...)` state machine: `pend` holds
a seen `X`-character together with the number of following spaces read so
far.  On `Y` after at least one space both characters are emitted and the
scan resumes after them (non-overlapping matches — the `Y` character is
*not* reconsidered as a new `X`).  Faithful because no class used for `X`
contains the half-width space. -/
def subPairGo (p q : Char → Bool) (pend : Option (Char × Nat)) : Line → Line
  | [] =>
    match pend with
    | some (a, k) => a :: List.replicate k ' '
    | none => []
  | c :: rest =>
    match pend with
    | some (a, k) =>
      if c = ' ' then subPairGo p q (some (a, k + 1)) rest
      else if k ≠ 0 ∧ q c then a :: c :: subPairGo p q none rest
      else if p c then a :: (List.replicate k ' ' ++ subPairGo p q (some (c, 0)) rest)
      else a :: (List.replicate k ' ' ++ c :: subPairGo p q none rest)
    | none =>
      if p c then subPairGo p q (some (c, 0)) rest
      else c :: subPairGo p q none rest

/-- The `re.sub(r'(X) +(Y)', r'\1\2', ...)`. -/
def subPair (p q : Char → Bool) (l : Line) : Line := subPairGo p q none l

/-- Per-line processing of `clean_text` (`text_formatter.py:55-82`):
protect a leading full-width-space indent, turn interior full-width spaces
into half-width ones, collapse space runs, drop spaces adjacent to
punctuation, in aggressive mode delete spaces between Japanese characters,
then restore the indent (non-aggressive) or strip the line (aggressive). -/
def cleanLine (aggressive : Bool) (line : Line) : Line :=
  let stripped0 := line.dropWhile (· = '　')
  let indentLen := line.length - stripped0.length
  let s1 := stripped0.map (fun c => if c = '　' then ' ' else c)
  let s2 := collapseSpaces s1
  let s3 := subSpaceCloser s2
  let s4 := subOpenerSpace s3
  let s5 := if aggressive then subPair isJp1 isJp1 s4 else s4
  if aggressive = false ∧ indentLen ≠ 0 then List.replicate indentLen '　' ++ s5
  else pyStrip s5

/-- The `text.replace('\r\n', '\n').replace('\r', '\n')`. -/
def subCrlfGo (pendCr : Bool) : Line → Line
  | [] => if pendCr then ['\n'] else []
  | c :: rest =>
    if pendCr then
      if c = '\n' then '\n' :: subCrlfGo false rest
      else if c = '\r' then '\n' :: subCrlfGo true rest
      else '\n' :: c :: subCrlfGo false rest
    else if c = '\r' then subCrlfGo true rest
    else c :: subCrlfGo false rest

/-- Newline normalization of `clean_text` (line 87). -/
def subCrlf (l : Line) : Line := subCrlfGo false l

/-- The `re.sub(r'\n{3,}', '\n\n', ...)`: each maximal newline run of length at
least three becomes two newlines (`run` counts pending newlines). -/
def collapseNlGo (run : Nat) : Line → Line
  | [] => List.replicate (min run 2) '\n'
  | c :: rest =>
    if c = '\n' then collapseNlGo (run + 1) rest
    else List.replicate (min run 2) '\n' ++ c :: collapseNlGo 0 rest

/-- The blank-line reduction of `clean_text` (line 91). -/
def collapseNl3 (l : Line) : Line := collapseNlGo 0 l

/-- The `TextFormatter.clean_text` from `text_formatter.py:37-99`. -/
def cleanText (text : Line) (aggressive : Bool) : Line :=
  let t1 := text.filter (fun c => !isInvisible c)
  let t2 := t1.map (fun c => if c = '\t' then ' ' else c)
  let t3 := joinNl ((splitNl t2).map (cleanLine aggressive))
  let t4 := subCrlf t3
  let t5 := collapseNl3 t4
  let t6 := joinNl ((splitNl t5).map pyRstrip)
  pyStrip t6

/-- The Unicode space variants mapped to the ordinary space by
`remove_meaningless_spaces` (all entries of its table except ` ` and
`　`, which the loop skips — `text_formatter.py:118-120`). -/
def specialSpaces : List Char :=
  [' ', ' ', ' ', ' ', ' ', ' ', ' ',
   ' ', ' ', ' ', ' ', ' ', ' ', ' ', ' ']

/-- Per-line processing of `remove_meaningless_spaces`
(`text_formatter.py:126-148`). -/
def rmsLine (line : Line) : Line :=
  let l := pyStrip line
  if l.isEmpty then []
  else
    let l1 := subPair isJp1 isJp1 l
    let l2 := subPair isJp2 closers2.contains l1
    let l3 := subPair openers2.contains isJp2 l2
    let l4 := subPair isPyDigit unitChars.contains l3
    collapseSpaces l4

/-- The consecutive-blank-line reduction loop shared by the formatter
passes (`text_formatter.py:151-160`): runs of empty lines shrink to one. -/
def dedupBlankGo (prevEmpty : Bool) : List Line → List Line
  | [] => []
  | l :: rest =>
    if l.isEmpty then
      if prevEmpty then dedupBlankGo true rest
      else [] :: dedupBlankGo true rest
    else l :: dedupBlankGo false rest

/-- The `TextFormatter.remove_meaningless_spaces` from `text_formatter.py:101-162`. -/
def removeMeaninglessSpaces (text : Line) : Line :=
  let t1 := text.map (fun c => if specialSpaces.contains c then ' ' else c)
  joinNl (dedupBlankGo false ((splitNl t1).map rmsLine))

/-! ## `text_formatter` — segmentation strategies -/

/-- The sentence-final punctuation `[。！？]`. -/
def isSentEnd (c : Char) : Bool := c = '。' ∨ c = '！' ∨ c = '？'

/-- The split `re.split(r'([。！？])', text)`: alternating segments and captured
delimiters (odd positions), whose concatenation is the input. -/
def splitPunctKeep : Line → List Line
  | [] => [[]]
  | c :: rest =>
    let r := splitPunctKeep rest
    if isSentEnd c then [] :: [c] :: r else (c :: r.headD []) :: r.tail

/-- The pairs visited by `for i in range(0, len(sentences), 2)`:
each segment together with the delimiter following it, if any. -/
def toPairs : List Line → List (Line × Option Line)
  | [] => []
  | [s] => [(s, none)]
  | s :: d :: rest => (s, some d) :: toPairs rest

/-- Re-attach `、` to every piece of `split('、')` except the last
(`sub_part += '、'` for `j < len(sub_parts) - 1`). -/
def reAttachComma : List Line → List Line
  | [] => []
  | [p] => [p]
  | p :: rest => (p ++ ['、']) :: reAttachComma rest

/-- The `temp_line` accumulation over comma pieces
(`text_formatter.py:190-203`). -/
def commaAcc (maxLength : Nat) : List Line → Line → List Line → List Line
  | lines, temp, [] => if temp.isEmpty then lines else lines ++ [temp]
  | lines, temp, p :: rest =>
    if temp.length + p.length ≤ maxLength then commaAcc maxLength lines (temp ++ p) rest
    else commaAcc maxLength (lines ++ if temp.isEmpty then [] else [temp]) p rest

/-- The connective split points of `method1_punctuation_advanced`
(`text_formatter.py:207`), in source order. -/
def splitPoints : List Line :=
  ["が、".toList, "けれど".toList, "しかし".toList, "また、".toList,
   "そして".toList, "ので".toList, "から".toList]

/-- Python `s.split(point, 1)` when `point` occurs in `s`: the part before
the first occurrence and the part after it. -/
def splitOnceAt (pt : Line) : Line → Line × Line
  | [] => ([], [])
  | c :: rest =>
    if pt.isPrefixOf (c :: rest) then ([], (c :: rest).drop pt.length)
    else
      let (a, b) := splitOnceAt pt rest
      (c :: a, b)

/-- One iteration of the sentence loop of `method1_punctuation_advanced`
(`text_formatter.py:177-226`), transforming `(lines, current_sentence)`. -/
def m1Step (maxLength : Nat) (st : List Line × Line) (pair : Line × Option Line) :
    List Line × Line :=
  let lines := st.1
  let cs := st.2 ++ pair.1 ++ (pair.2.getD [])
  if maxLength < cs.length then
    if containsSub ['、'] cs then
      (commaAcc maxLength lines [] (reAttachComma (splitCh '、' cs)), [])
    else
      match splitPoints.find? (fun pt => containsSub pt cs) with
      | some pt =>
        let ab := splitOnceAt pt cs
        (lines ++ [ab.1 ++ pt], ab.2)
      | none => (lines ++ [cs], [])
  else if (match cs.getLast? with | some c => isSentEnd c | none => false) then
    (lines ++ [cs], [])
  else (lines, cs)

/-- The chunk list built by `method1_punctuation_advanced` before its final
formatting loop (`lines` plus a leftover `current_sentence`). -/
def m1Chunks (text : Line) (maxLength : Nat) : List Line :=
  let st := (toPairs (splitPunctKeep text)).foldl (m1Step maxLength) ([], [])
  st.1 ++ if st.2.isEmpty then [] else [st.2]

/-- The final formatting loop of `method1_punctuation_advanced`
(`text_formatter.py:233-240`): strip each chunk, drop chunks that are empty
after stripping, and insert one blank line after a stripped chunk that ends
in `。` and is longer than 30 characters (a paragraph separator). -/
def postProcess : List Line → List Line
  | [] => []
  | ch :: rest =>
    let l := pyStrip ch
    if l.isEmpty then postProcess rest
    else l :: ((if l.getLast? = some '。' ∧ 30 < l.length then [[]] else []) ++ postProcess rest)

/-- The `TextFormatter.method1_punctuation_advanced` from
`text_formatter.py:164-242` (`max_length` defaults to 50 in the source). -/
def method1PunctuationAdvanced (text : Line) (maxLength : Nat) : Line :=
  joinNl (postProcess (m1Chunks text maxLength))

/-- A MeCab node as consumed by `method3_morphological`: its surface form
and its feature string (the part of speech is the first comma field). -/
structure MecabNode where
  surface : Line
  feature : Line

/-- The `node.feature.split(',')[0]`. -/
def nodePos (n : MecabNode) : Line := n.feature.takeWhile (· ≠ ',')

/-- The token walk of `method3_morphological` (`text_formatter.py:284-311`):
break after particles/auxiliaries/symbols once the line reaches
`max_length`, and always break on sentence-final punctuation. -/
def m3Loop (maxLength : Nat) : List Line → Line → List MecabNode → List Line
  | lines, current, [] => if current.isEmpty then lines else lines ++ [current]
  | lines, current, node :: rest =>
    let pos := nodePos node
    let isBunsetsuEnd :=
      pos = "助詞".toList ∨ pos = "助動詞".toList ∨ pos = "記号".toList
    let cur1 := current ++ node.surface
    let st :=
      if isBunsetsuEnd ∧ maxLength ≤ cur1.length then (lines ++ [cur1], ([] : Line))
      else (lines, cur1)
    if node.surface = ['。'] ∨ node.surface = ['！'] ∨ node.surface = ['？'] then
      m3Loop maxLength (st.1 ++ [st.2]) [] rest
    else m3Loop maxLength st.1 st.2 rest

/-- The `TextFormatter.method3_morphological` from `text_formatter.py:269-313`.
The optional collaborator is the `parseToNode` tokenizer; `none` models
`self.mecab` being unset (MeCab missing or failed to initialize).  The
boolean records whether the unavailability warning was printed. -/
def method3Morphological (mecab : Option (Line → List MecabNode)) (text : Line)
    (maxLength : Nat) : Line × Bool :=
  match mecab with
  | none => (method1PunctuationAdvanced text maxLength, true)
  | some tagger => (joinNl (m3Loop maxLength [] [] (tagger text)), false)

/-! ### `method4_semantic_breaks` -/

/-- First break-pattern alternation of `method4_semantic_breaks`
(`text_formatter.py:324`): particle+comma boundaries. -/
def breakAlts1 : List Line :=
  ["は、".toList, "が、".toList, "を、".toList, "に、".toList, "で、".toList,
   "と、".toList, "から、".toList, "まで、".toList, "より、".toList]

/-- Second alternation (line 325): adnominal connectives. -/
def breakAlts2 : List Line :=
  ["という".toList, "といった".toList, "などの".toList, "ような".toList, "ために".toList]

/-- Third alternation (line 326): polite copula connectives. -/
def breakAlts3 : List Line :=
  ["であり、".toList, "であって、".toList, "ですが、".toList, "ですけれど、".toList]

/-- The `re.sub('(alt1|alt2|...)', r'\1\n', text)` by fuel on the input length:
at each position the first matching alternative (regex alternation order) is
emitted followed by a newline and the scan resumes after it.  Every
alternative is non-empty, so each step consumes at least one character and
the fuel never runs out. -/
def subAltsF (alts : List Line) : Nat → Line → Line
  | 0, l => l
  | _ + 1, [] => []
  | fuel + 1, c :: rest =>
    match alts.find? (fun a => a.isPrefixOf (c :: rest)) with
    | some a => a ++ '\n' :: subAltsF alts fuel ((c :: rest).drop a.length)
    | none => c :: subAltsF alts fuel rest

/-- The `re.sub` of a literal alternation, replacement `\1\n`. -/
def subAlts (alts : List Line) (l : Line) : Line := subAltsF alts l.length l

/-- Lazy part of `、.{20,}?、`: after twenty accumulated characters, close
at the first `、`, fail at a newline (`.` does not match it). -/
def p4FindGo (mid : Line) : Line → Option (Line × Line)
  | [] => none
  | c :: rest =>
    if c = '、' then some (mid, rest)
    else if c = '\n' then none
    else p4FindGo (mid ++ [c]) rest

/-- Attempt `.{20,}?、` on the text following an opening `、`. -/
def p4Find (l : Line) : Option (Line × Line) :=
  let first20 := l.take 20
  if first20.length < 20 ∨ first20.contains '\n' then none
  else p4FindGo first20 (l.drop 20)

/-- The replacement `m.group(1).replace('、', '、\n')`. -/
def p4InsertBreaks (l : Line) : Line :=
  l.flatMap (fun c => if c = '、' then ['、', '\n'] else [c])

/-- The `re.sub(r'(、.{20,}?、)', ...)` of `method4_semantic_breaks` (line 327),
by fuel on the input length (a successful match consumes at least
twenty-two characters). -/
def p4SubF : Nat → Line → Line
  | 0, l => l
  | _ + 1, [] => []
  | fuel + 1, c :: rest =>
    if c = '、' then
      match p4Find rest with
      | some (mid, rest2) => p4InsertBreaks ('、' :: mid ++ ['、']) ++ p4SubF fuel rest2
      | none => c :: p4SubF fuel rest
    else c :: p4SubF fuel rest

/-- The long-clause break pattern of `method4_semantic_breaks`. -/
def p4Sub (l : Line) : Line := p4SubF l.length l

/-- The short-line merge loop of `method4_semantic_breaks`
(`text_formatter.py:338-352`): a stripped line shorter than ten characters
is appended to the pending previous line `temp` when one exists. -/
def mergeGo : Line → List Line → List Line
  | temp, [] => if temp.isEmpty then [] else [temp]
  | temp, line :: rest =>
    let l := pyStrip line
    if l.length < 10 ∧ ¬temp.isEmpty then mergeGo (temp ++ l) rest
    else (if temp.isEmpty then [] else [temp]) ++ mergeGo l rest

/-- The output lines of `method4_semantic_breaks`. -/
def method4Lines (text : Line) : List Line :=
  let r1 := subAlts breakAlts1 text
  let r2 := subAlts breakAlts2 r1
  let r3 := subAlts breakAlts3 r2
  let r4 := p4Sub r3
  let r5 := collapseNl3 r4
  mergeGo [] (splitNl r5)

/-- The `TextFormatter.method4_semantic_breaks` from `text_formatter.py:315-354`. -/
def method4SemanticBreaks (text : Line) : Line := joinNl (method4Lines text)

/-! ## `pdf_to_txt_advanced.detect_sidebar_titles` and
`complete_pdf_processor.clean_extracted_text` -/

/-- The keyword list of `detect_sidebar_titles` (`pdf_to_txt_advanced.py:163`). -/
def advSidebarKeywords : List Line :=
  [['第'], ['章'], "Chapter".toList, "Section".toList, ['節']]

/-- The `detect_sidebar_titles` from `pdf_to_txt_advanced.py:150-175`: indices of
lines that are short (stripped length at most 20), contain a structural
keyword and sit next to a blank line or a page edge, plus indices of
page-number-shaped lines; a line satisfying both conditions is appended
twice, exactly as the two independent `if`s do. -/
def detectSidebarTitles (lines : List Line) : List Nat :=
  (List.range lines.length).flatMap (fun i =>
    let line := lines.getD i []
    if (pyStrip line).isEmpty then []
    else
      (if (pyStrip line).length ≤ 20 ∧
          advSidebarKeywords.any (fun k => containsSub k line) ∧
          ((i = 0 ∨ (pyStrip (lines.getD (i - 1) [])).isEmpty) ∨
           (i = lines.length - 1 ∨ (pyStrip (lines.getD (i + 1) [])).isEmpty)) then [i]
       else []) ++
      (if matchBareNum line ∨ matchDashNum line then [i] else []))

/-- The line loop of `clean_extracted_text`
(`complete_pdf_processor.py:89-117`), carrying the accumulated
`cleaned_lines` and `prev_line`: blank lines are kept only after non-blank
output, PDF-header preamble lines, detected repeated patterns, sidebar
titles and short duplicates of the previous kept line are skipped. -/
def cetGo (pats : List Line) : List Line → Line → List Line → List Line
  | acc, _, [] => acc
  | acc, prev, line :: rest =>
    let stripped := pyStrip line
    if stripped.isEmpty then
      if (match acc.getLast? with | some last => !(pyStrip last).isEmpty | none => false) then
        cetGo pats (acc ++ [[]]) prev rest
      else cetGo pats acc prev rest
    else if "PDFファイル:".toList.isPrefixOf stripped ∨
            "ページ番号:".toList.isPrefixOf stripped ∨
            (List.replicate 10 '=').isPrefixOf stripped then
      cetGo pats acc prev rest
    else if pats.contains stripped then cetGo pats acc prev rest
    else if isSidebarTitle stripped then cetGo pats acc prev rest
    else if stripped.length < 50 ∧ stripped = pyStrip prev then cetGo pats acc prev rest
    else cetGo pats (acc ++ [line]) line rest

/-- The trailing blank-run reduction of `clean_extracted_text`
(`complete_pdf_processor.py:120-129`), keyed on `line.strip()`. -/
def collapseBlankStripGo (prevEmpty : Bool) : List Line → List Line
  | [] => []
  | l :: rest =>
    if (pyStrip l).isEmpty then
      if prevEmpty then collapseBlankStripGo true rest
      else [] :: collapseBlankStripGo true rest
    else l :: collapseBlankStripGo false rest

/-- The final line list of `clean_extracted_text`. -/
def cleanExtractedLines (text : Line) (pats : List Line) : List Line :=
  collapseBlankStripGo false (cetGo pats [] [] (splitNl text))

/-- The `clean_extracted_text` from `complete_pdf_processor.py:83-131`. -/
def cleanExtractedText (text : Line) (pats : List Line) : Line :=
  pyStrip (joinNl (cleanExtractedLines text pats))

/-- The pending-state size of `subPairGo`. -/
def pendLen : Option (Char × Nat) → Nat
  | none => 0
  | some (_, k) => k + 1

/-! ## Concrete evaluations checking the embedding against the sources -/

example : isSidebarTitle "第3章".toList = true := by decide

example : isChapterTitle "第3章".toList = true := by decide

example : isSidebarTitle "これは本文中の第3章という単語を含む長い一文です".toList = true := by decide

example : isChapterTitle "これは本文中の第3章という単語を含む長い一文です".toList = true := by decide

example : isChapterTitle "第九十".toList = false := by decide

example : isSidebarTitle "- 12 -".toList = true := by decide

example : isChapterTitle "本文".toList = false := by decide

example : advCount [["x".toList, "x".toList, "x".toList]] "x".toList = 6 := by decide

example : detectRepeatedLinesHFR [["header".toList]] = ["header".toList] := by decide

example : detectRepeatedPatternsCPP [["header".toList]] = [] := by decide

example : normalizeForComparison "- 12 -".toList = "- [NUM] -".toList := by decide

example : normalizeForComparison "Page 3".toList = normalizeForComparison "Page 47".toList := by decide

example : headersOf samplePages = ["報告書 [NUM]".toList] := by decide

example : footersOf samplePages = ["- [NUM] -".toList] := by decide

example : removeMeaninglessSpaces "あ い う".toList = "あい う".toList := by decide

example :
    removeMeaninglessSpaces (removeMeaninglessSpaces "あ い う".toList) = "あいう".toList := by
  decide

example : cleanText "あ い う".toList true = "あい う".toList := by decide

example : cleanText (cleanText "あ い う".toList true) true = "あいう".toList := by decide

example : cleanText "a\t  b \n\n\n\nc".toList true = "a b\n\nc".toList := by decide

example : removeMeaninglessSpaces "これ は 、 テスト です 。\n\n\n12 円".toList =
    "これは、 テストです。\n\n12円".toList := by decide

example : cleanText "　字下げ（ あり ）".toList false = "字下げ（あり）".toList := by decide

example :
    method1PunctuationAdvanced
        "これはとても長い文章です、句読点がたくさんあります、読みやすくする必要があります。".toList 20 =
      "これはとても長い文章です、\n句読点がたくさんあります、\n読みやすくする必要があります。".toList := by
  decide

example :
    method4SemanticBreaks "あい\nこれは十分に長い行のサンプルです".toList =
      "あい\nこれは十分に長い行のサンプルです".toList := by decide

example :
    method4SemanticBreaks "私は、外を歩いた".toList = "私は、外を歩いた".toList := by decide

example :
    method4SemanticBreaks "春になると、やわらかな日差しが庭のすみずみまで届いて、小さな花が咲く".toList =
      "春になると、\nやわらかな日差しが庭のすみずみまで届いて、小さな花が咲く".toList := by decide

example : detectSidebarTitles ["これは本文中の第3章という単語を含む長い一文です".toList] = [] := by decide

example : detectSidebarTitles ["第3章".toList] = [0] := by decide

example :
    cleanExtractedText "ほんぶんはここにあります。\n第3章\nつづきのほんぶんです。".toList [] =
      "ほんぶんはここにあります。\nつづきのほんぶんです。".toList := by decide

example :
    cleanExtractedText "ページ番号: 3\nほんとうのほんぶん\n- 3 -".toList [] =
      "ほんとうのほんぶん".toList := by decide

/-! ## General lemmas about the string primitives -/

theorem dropWhile_dropWhile_self (p : α → Bool) (l : List α) :
    (l.dropWhile p).dropWhile p = l.dropWhile p := by
  induction l with
  | nil => rfl
  | cons a t ih =>
    by_cases h : p a
    · simp [List.dropWhile_cons, h, ih]
    · simp [List.dropWhile_cons, h]

theorem head_not_of_dropWhile_eq_self {p : α → Bool} {a : α} {t : List α}
    (h : (a :: t).dropWhile p = a :: t) : ¬ p a = true := by
  intro hp
  rw [List.dropWhile_cons, if_pos hp] at h
  have hle := (List.dropWhile_suffix (l := t) p).sublist.length_le
  rw [h] at hle
  simp at hle

theorem pyLstrip_idem (l : Line) : pyLstrip (pyLstrip l) = pyLstrip l :=
  dropWhile_dropWhile_self _ _

theorem pyRstrip_idem (l : Line) : pyRstrip (pyRstrip l) = pyRstrip l := by
  unfold pyRstrip
  rw [List.reverse_reverse, dropWhile_dropWhile_self]

theorem pyRstrip_prefix_self (l : Line) : pyRstrip l <+: l := by
  have h : (l.reverse.dropWhile isPyWs) <:+ l.reverse := List.dropWhile_suffix _
  have h2 := List.reverse_prefix.mpr h
  rwa [List.reverse_reverse] at h2

theorem pyLstrip_suffix (l : Line) : pyLstrip l <:+ l := List.dropWhile_suffix _

theorem pyLstrip_rstrip (x : Line) (h : pyLstrip x = x) :
    pyLstrip (pyRstrip x) = pyRstrip x := by
  cases hx : pyRstrip x with
  | nil => simp [pyLstrip]
  | cons b u =>
    have hpre := pyRstrip_prefix_self x
    rw [hx] at hpre
    obtain ⟨t, ht⟩ := hpre
    have hb : ¬ isPyWs b = true := by
      apply head_not_of_dropWhile_eq_self (t := u ++ t)
      have hx2 : x = b :: (u ++ t) := by rw [← ht]; simp
      rw [← hx2]
      exact h
    simp [pyLstrip, List.dropWhile_cons, hb]

theorem pyStrip_idem (l : Line) : pyStrip (pyStrip l) = pyStrip l := by
  show pyRstrip (pyLstrip (pyRstrip (pyLstrip l))) = pyRstrip (pyLstrip l)
  rw [pyLstrip_rstrip _ (pyLstrip_idem l), pyRstrip_idem]

theorem pyStrip_length_le (l : Line) : (pyStrip l).length ≤ l.length := by
  have h1 := (pyRstrip_prefix_self (pyLstrip l)).sublist.length_le
  have h2 := (pyLstrip_suffix l).sublist.length_le
  exact le_trans h1 h2

theorem pyLstrip_eq_nil_iff (l : Line) : pyLstrip l = [] ↔ l.all isPyWs = true := by
  induction l with
  | nil => simp [pyLstrip]
  | cons a t ih =>
    show (a :: t).dropWhile isPyWs = [] ↔ _
    rw [List.dropWhile_cons]
    by_cases h : isPyWs a
    · simp only [if_pos h, List.all_cons, h, Bool.true_and]
      exact ih
    · simp [h]

theorem pyRstrip_eq_nil_iff (l : Line) : pyRstrip l = [] ↔ l.all isPyWs = true := by
  unfold pyRstrip
  rw [List.reverse_eq_nil_iff]
  rw [show (l.reverse.dropWhile isPyWs = []) ↔ l.reverse.all isPyWs = true from
    pyLstrip_eq_nil_iff l.reverse]
  simp

theorem pyStrip_eq_nil_iff (l : Line) : pyStrip l = [] ↔ l.all isPyWs = true := by
  show pyRstrip (pyLstrip l) = [] ↔ _
  rw [pyRstrip_eq_nil_iff]
  constructor
  · intro h
    have hsplit := List.takeWhile_append_dropWhile (p := isPyWs) (l := l)
    rw [← hsplit, List.all_append]
    simp only [Bool.and_eq_true]
    refine ⟨?_, h⟩
    simp only [List.all_eq_true]
    exact fun x hx => List.mem_takeWhile_imp hx
  · intro h
    simp only [List.all_eq_true] at h ⊢
    exact fun x hx => h x ((pyLstrip_suffix l).sublist.mem hx)

theorem pyStrip_ne_nil_of_any (l : Line) (h : l.any (fun c => !isPyWs c) = true) :
    ¬ pyStrip l = [] := by
  intro hnil
  rw [pyStrip_eq_nil_iff] at hnil
  simp only [List.any_eq_true, Bool.not_eq_true'] at h
  simp only [List.all_eq_true] at hnil
  obtain ⟨c, hc, hcw⟩ := h
  rw [hnil c hc] at hcw
  cases hcw

theorem pyStrip_any_nonws (l : Line) (h : ¬ pyStrip l = []) :
    (pyStrip l).any (fun c => !isPyWs c) = true := by
  by_contra hall
  apply h
  rw [← pyStrip_idem l, pyStrip_eq_nil_iff]
  simp only [List.any_eq_true, Bool.not_eq_true'] at hall
  push_neg at hall
  simp only [List.all_eq_true]
  intro c hc
  have := hall c hc
  simp only [Bool.not_eq_false] at this
  exact this

theorem getLast?_pyStrip (l : Line) (c : Char) (hc : isPyWs c = false)
    (h : l.getLast? = some c) : (pyStrip l).getLast? = some c := by
  have h1 : (pyLstrip l).getLast? = some c := by
    have hsplit := List.takeWhile_append_dropWhile (p := isPyWs) (l := l)
    have hlast : l.getLast? = (pyLstrip l).getLast?.or (l.takeWhile isPyWs).getLast? := by
      conv_lhs => rw [← hsplit]
      exact List.getLast?_append
    cases hl : (pyLstrip l).getLast? with
    | some d =>
      rw [h, hl] at hlast
      simpa using hlast.symm
    | none =>
      -- the left-stripped list is empty, so every character of l is whitespace
      have hnil : pyLstrip l = [] := by
        cases he : pyLstrip l
        · rfl
        · rw [he] at hl; simp [List.getLast?] at hl
      exfalso
      have hall := (pyLstrip_eq_nil_iff l).mp hnil
      simp only [List.all_eq_true] at hall
      have hmem : c ∈ l := by
        cases l with
        | nil => cases h
        | cons a t =>
          have hne : (a :: t) ≠ [] := by simp
          rw [List.getLast?_eq_getLast_of_ne_nil hne] at h
          have hin := List.getLast_mem hne
          rw [← Option.some.inj h]
          exact hin
      rw [hall c hmem] at hc
      cases hc
  -- now the right strip keeps a non-whitespace last character
  show (pyRstrip (pyLstrip l)).getLast? = some c
  set x := pyLstrip l with hx
  have hrev : x.reverse.head? = some c := by
    rw [List.head?_reverse]
    exact h1
  cases hxr : x.reverse with
  | nil => rw [hxr] at hrev; cases hrev
  | cons b u =>
    have hb : b = c := by rw [hxr] at hrev; simpa using hrev
    unfold pyRstrip
    rw [hxr, List.dropWhile_cons, hb, hc]
    simp only [Bool.false_eq_true, if_false]
    rw [List.getLast?_eq_head?_reverse, List.reverse_reverse]
    simp [hb]

theorem count_le_one_of_nodup {α : Type _} [BEq α] [LawfulBEq α] {l : List α}
    (h : l.Nodup) (a : α) : l.count a ≤ 1 := by
  induction l with
  | nil => simp
  | cons b t ih =>
    have hn := List.nodup_cons.mp h
    rw [List.count_cons]
    by_cases he : a = b
    · subst he
      have h0 : t.count a = 0 := List.count_eq_zero.mpr hn.1
      simp [h0]
    · have hbeq : (b == a) = false := by
        simp only [beq_eq_false_iff_ne, ne_eq]
        intro h
        exact he h.symm
      simp [hbeq]
      exact ih hn.2

/-! ## Claim theorems -/

/-- C1 (counterexample): the claim is false for two of the three detectors
it names.  `detect_repeated_lines` (threshold `total * 0.4`, no floor) and
the advanced `detect_repeated_patterns` (threshold `total * 0.5`) both
return a non-empty signature set for a one-element page set, because a
count of one already meets `0.4` resp. `0.5`. -/
theorem detectRepeatedLines_single_file_nonempty :
    detectRepeatedLinesHFR [["header".toList]] = ["header".toList] ∧
    detectRepeatedLinesHFR [["header".toList]] ≠ [] ∧
    advRepeated [["x".toList]] = ["x".toList] ∧
    advRepeated [["x".toList]] ≠ [] := by decide

/-- C1 (amended): only `complete_pdf_processor.detect_repeated_patterns`
has the floor `max(2, 0.4·total)`, so only it is guaranteed to return an
empty set for every single-file input: each candidate is counted at most
once for the single file and `1 < 2`. -/
theorem detectRepeatedPatternsCPP_single_file_empty (file : List Line) :
    detectRepeatedPatternsCPP [file] = [] := by
  unfold detectRepeatedPatternsCPP
  rw [List.filter_eq_nil_iff]
  intro s _hs
  have hle : cppCount [file] s ≤ 1 := by
    unfold cppCount
    simp only [List.map_cons, List.map_nil, List.sum_cons, List.sum_nil, Nat.add_zero]
    exact count_le_one_of_nodup (List.nodup_dedup _) s
  simp only [decide_eq_true_eq, not_and]
  intro h2
  omega

/-- C3: `identify_header_footer_patterns` places every qualifying signature
in exactly one of the two output lists: in `headers` exactly when it was
seen near the top of strictly more pages than near the bottom, in
`footers` otherwise (ties included), and never in both. -/
theorem identify_header_footer_partition (pages : List (List Line)) (pat : Line) :
    (pat ∈ headersOf pages ↔
      pat ∈ advRepeated pages ∧ occBottom pages pat < occTop pages pat) ∧
    (pat ∈ footersOf pages ↔
      pat ∈ advRepeated pages ∧ ¬ occBottom pages pat < occTop pages pat) ∧
    (pat ∈ headersOf pages → pat ∉ footersOf pages) := by
  refine ⟨?_, ?_, ?_⟩
  · simp [headersOf, List.mem_filter]
  · simp [footersOf, List.mem_filter]
  · intro h1 h2
    simp only [headersOf, List.mem_filter, decide_eq_true_eq] at h1
    simp only [footersOf, List.mem_filter, decide_eq_true_eq] at h2
    exact h2.2 h1.2

/-- Witness for C3 on a concrete three-page set: the running title is
classified as a header, and the theorem then excludes it from the footers. -/
theorem identify_header_footer_partition_witness :
    "報告書 [NUM]".toList ∉ footersOf samplePages :=
  (identify_header_footer_partition samplePages "報告書 [NUM]".toList).2.2 (by decide)

/-- C4 (amended): in `complete_pdf_processor.detect_repeated_patterns`
each file contributes at most one to any candidate's count (the per-file
candidate set is deduplicated), so the total count never exceeds the number
of files.  The advanced extractor (see the counterexample) lacks this. -/
theorem cpp_detector_page_contributes_at_most_one
    (files : List (List Line)) (file : List Line) (s : Line) :
    (uniqueLinesCPP file).count s ≤ 1 ∧ cppCount files s ≤ files.length := by
  constructor
  · exact count_le_one_of_nodup (List.nodup_dedup _) s
  · induction files with
    | nil => simp [cppCount]
    | cons f fs ih =>
      have h1 : (uniqueLinesCPP f).count s ≤ 1 :=
        count_le_one_of_nodup (List.nodup_dedup _) s
      have hstep : cppCount (f :: fs) s = (uniqueLinesCPP f).count s + cppCount fs s := by
        unfold cppCount
        simp
      rw [hstep]
      simp only [List.length_cons]
      omega

/-- C4 (counterexample): in `pdf_to_txt_advanced.detect_repeated_patterns`
a single three-line page contributes six counts to one signature — the
top-3 and bottom-3 windows overlap completely and nothing is deduplicated
within a page. -/
theorem advanced_detector_page_contributes_six :
    advCount [["x".toList, "x".toList, "x".toList]] "x".toList = 6 ∧
    advCount [["x".toList]] "x".toList = 2 := by decide

/-- C5 (counterexample): the 24-character line is in fact classified as
structural by both classifiers the claim cites — their length gates are 30,
not 20, so the claim's `False` verdict for it is wrong. -/
theorem long_keyword_line_classified_structural :
    isSidebarTitle "これは本文中の第3章という単語を含む長い一文です".toList = true ∧
    isChapterTitle "これは本文中の第3章という単語を含む長い一文です".toList = true ∧
    (pyStrip "これは本文中の第3章という単語を含む長い一文です".toList).length = 24 := by decide

/-- C5 (amended): `"第3章"` is structural for every classifier; the
24-character keyword sentence is structural for `is_sidebar_title`
(gate ≤ 30) and `is_chapter_title` (gate < 30), and only the advanced
extractor's `detect_sidebar_titles`, whose keyword gate is 20 characters,
declines it. -/
theorem structural_classifier_values :
    isSidebarTitle "第3章".toList = true ∧
    isChapterTitle "第3章".toList = true ∧
    detectSidebarTitles ["第3章".toList] = [0] ∧
    isSidebarTitle "これは本文中の第3章という単語を含む長い一文です".toList = true ∧
    isChapterTitle "これは本文中の第3章という単語を含む長い一文です".toList = true ∧
    detectSidebarTitles ["これは本文中の第3章という単語を含む長い一文です".toList] = [] := by
  decide

/-- C9: when the morphological collaborator is absent (`self.mecab` unset),
`method3_morphological` emits its warning and returns exactly the result of
`method1_punctuation_advanced` on the same text and `max_length`. -/
theorem method3_fallback_to_method1 (text : Line) (maxLength : Nat) :
    method3Morphological none text maxLength =
      (method1PunctuationAdvanced text maxLength, true) := rfl

/-! ## Length lemmas for the whitespace passes (C2) -/

theorem pyRstrip_length_le (l : Line) : (pyRstrip l).length ≤ l.length :=
  (pyRstrip_prefix_self l).sublist.length_le

theorem splitCh_ne_nil (sep : Char) (l : Line) : splitCh sep l ≠ [] := by
  cases l with
  | nil => simp [splitCh]
  | cons c rest =>
    unfold splitCh
    by_cases h : c = sep <;> simp [h]

theorem joinCh_cons_cons (sep : Char) (x y : Line) (ss : List Line) :
    joinCh sep (x :: y :: ss) = x ++ sep :: joinCh sep (y :: ss) := rfl

theorem joinCh_splitCh (sep : Char) (l : Line) : joinCh sep (splitCh sep l) = l := by
  induction l with
  | nil => rfl
  | cons c rest ih =>
    unfold splitCh
    by_cases h : c = sep
    · simp only [h, if_true]
      cases hr : splitCh sep rest with
      | nil => exact absurd hr (splitCh_ne_nil _ _)
      | cons s ss =>
        rw [joinCh_cons_cons]
        rw [hr] at ih
        simp [ih]
    · simp only [h, if_false]
      cases hr : splitCh sep rest with
      | nil => exact absurd hr (splitCh_ne_nil _ _)
      | cons s ss =>
        rw [hr] at ih
        cases ss with
        | nil =>
          show joinCh sep [c :: s] = c :: rest
          show c :: s = c :: rest
          rw [show joinCh sep [s] = s from rfl] at ih
          rw [ih]
        | cons s2 ss2 =>
          show joinCh sep ((c :: s) :: s2 :: ss2) = c :: rest
          rw [joinCh_cons_cons]
          rw [joinCh_cons_cons] at ih
          simp only [List.cons_append]
          rw [ih]

theorem joinCh_map_length_le (sep : Char) (f : Line → Line) (ls : List Line)
    (h : ∀ l ∈ ls, (f l).length ≤ l.length) :
    (joinCh sep (ls.map f)).length ≤ (joinCh sep ls).length := by
  induction ls with
  | nil => simp
  | cons x rest ih =>
    cases rest with
    | nil =>
      show (joinCh sep [f x]).length ≤ (joinCh sep [x]).length
      exact h x (by simp)
    | cons y ss =>
      rw [List.map_cons, List.map_cons, joinCh_cons_cons, joinCh_cons_cons]
      simp only [List.length_append, List.length_cons]
      have h1 := h x (by simp)
      have h2 := ih (fun l hl => h l (List.mem_cons_of_mem _ hl))
      rw [List.map_cons] at h2
      omega

theorem joinCh_length_formula (sep : Char) (ls : List Line) :
    (joinCh sep ls).length = (ls.map List.length).sum + (ls.length - 1) := by
  induction ls with
  | nil => simp [joinCh]
  | cons x rest ih =>
    cases rest with
    | nil => simp [joinCh]
    | cons y ss =>
      rw [joinCh_cons_cons]
      simp only [List.length_append, List.length_cons, List.map_cons, List.sum_cons]
      simp only [List.map_cons, List.sum_cons, List.length_cons] at ih
      omega

theorem joinCh_sublist_length_le (sep : Char) {ls1 ls2 : List Line}
    (h : List.Sublist ls1 ls2) :
    (joinCh sep ls1).length ≤ (joinCh sep ls2).length := by
  rw [joinCh_length_formula, joinCh_length_formula]
  have hsum : (ls1.map List.length).sum ≤ (ls2.map List.length).sum :=
    (h.map List.length).sum_le_sum (by intro a _; exact Nat.zero_le a)
  have hlen := h.length_le
  omega

theorem joinNl_map_le_self (f : Line → Line) (hf : ∀ l : Line, (f l).length ≤ l.length)
    (x : Line) : (joinNl ((splitNl x).map f)).length ≤ x.length := by
  have h := joinCh_map_length_le '\n' f (splitCh '\n' x) (fun l _ => hf l)
  rw [show joinCh '\n' (splitCh '\n' x) = x from joinCh_splitCh '\n' x] at h
  exact h

theorem collapseSpacesGo_length_le (l : Line) : ∀ b : Bool,
    (collapseSpacesGo b l).length ≤ l.length := by
  induction l with
  | nil => intro b; simp [collapseSpacesGo]
  | cons c rest ih =>
    intro b
    have ih1 := ih true
    have ih0 := ih false
    unfold collapseSpacesGo
    split_ifs <;> simp only [List.length_cons] <;> omega

theorem subSpaceCloserGo_length (l : Line) : ∀ b : Bool,
    (subSpaceCloserGo b l).length ≤ l.length + cond b 1 0 := by
  induction l with
  | nil =>
    intro b
    cases b <;> simp [subSpaceCloserGo]
  | cons c rest ih =>
    intro b
    have ih1 := ih true
    have ih0 := ih false
    simp only [cond_true, cond_false] at ih1 ih0
    cases b with
    | false =>
      show (if c = ' ' then subSpaceCloserGo true rest
            else c :: subSpaceCloserGo false rest).length ≤ _
      by_cases hc : c = ' '
      · rw [if_pos hc]
        simp only [cond_false, List.length_cons]
        omega
      · rw [if_neg hc]
        simp only [cond_false, List.length_cons]
        omega
    | true =>
      show (if closers1.contains c then c :: subSpaceCloserGo false rest
            else if c = ' ' then ' ' :: subSpaceCloserGo true rest
            else ' ' :: c :: subSpaceCloserGo false rest).length ≤ _
      by_cases h1 : closers1.contains c
      · rw [if_pos h1]
        simp only [cond_true, List.length_cons]
        omega
      · rw [if_neg h1]
        by_cases h2 : c = ' '
        · rw [if_pos h2]
          simp only [cond_true, List.length_cons]
          omega
        · rw [if_neg h2]
          simp only [cond_true, List.length_cons]
          omega

theorem subSpaceCloser_length_le (l : Line) : (subSpaceCloser l).length ≤ l.length := by
  have h := subSpaceCloserGo_length l false
  simpa using h

theorem subOpenerSpaceGo_length_le (l : Line) : ∀ b : Bool,
    (subOpenerSpaceGo b l).length ≤ l.length := by
  induction l with
  | nil => intro b; simp [subOpenerSpaceGo]
  | cons c rest ih =>
    intro b
    have ih1 := ih true
    have ih0 := ih false
    have ihc := ih (openers1.contains c)
    unfold subOpenerSpaceGo
    split_ifs <;> simp only [List.length_cons] <;> omega

theorem subPairGo_length (p q : Char → Bool) (l : Line) : ∀ pend,
    (subPairGo p q pend l).length ≤ l.length + pendLen pend := by
  induction l with
  | nil =>
    intro pend
    cases pend with
    | none => simp [subPairGo, pendLen]
    | some ak =>
      obtain ⟨a, k⟩ := ak
      simp [subPairGo, pendLen]
  | cons c rest ih =>
    intro pend
    cases pend with
    | none =>
      have h1 := ih (some (c, 0))
      have h2 := ih none
      simp only [pendLen] at h1 h2
      show (if p c then subPairGo p q (some (c, 0)) rest
            else c :: subPairGo p q none rest).length ≤ _
      by_cases hpc : p c
      · rw [if_pos hpc]
        simp only [pendLen, List.length_cons]
        omega
      · rw [if_neg hpc]
        simp only [pendLen, List.length_cons]
        omega
    | some ak =>
      obtain ⟨a, k⟩ := ak
      have h1 := ih (some (a, k + 1))
      have h2 := ih none
      have h3 := ih (some (c, 0))
      simp only [pendLen] at h1 h2 h3
      show (if c = ' ' then subPairGo p q (some (a, k + 1)) rest
            else if k ≠ 0 ∧ q c then a :: c :: subPairGo p q none rest
            else if p c then a :: (List.replicate k ' ' ++ subPairGo p q (some (c, 0)) rest)
            else a :: (List.replicate k ' ' ++ c :: subPairGo p q none rest)).length ≤ _
      by_cases hsp : c = ' '
      · rw [if_pos hsp]
        simp only [pendLen, List.length_cons]
        omega
      · rw [if_neg hsp]
        by_cases hq : k ≠ 0 ∧ q c
        · rw [if_pos hq]
          simp only [pendLen, List.length_cons]
          omega
        · rw [if_neg hq]
          by_cases hpc : p c
          · rw [if_pos hpc]
            simp only [pendLen, List.length_cons, List.length_append, List.length_replicate]
            omega
          · rw [if_neg hpc]
            simp only [pendLen, List.length_cons, List.length_append, List.length_replicate]
            omega

theorem subPair_length_le (p q : Char → Bool) (l : Line) :
    (subPair p q l).length ≤ l.length := by
  have h := subPairGo_length p q l none
  simpa [pendLen] using h

theorem subCrlfGo_length (l : Line) : ∀ b : Bool,
    (subCrlfGo b l).length ≤ l.length + cond b 1 0 := by
  induction l with
  | nil =>
    intro b
    cases b <;> simp [subCrlfGo]
  | cons c rest ih =>
    intro b
    have ih1 := ih true
    have ih0 := ih false
    simp only [cond_true, cond_false] at ih1 ih0
    cases b with
    | false =>
      show (if c = '\r' then subCrlfGo true rest
            else c :: subCrlfGo false rest).length ≤ _
      by_cases hc : c = '\r'
      · rw [if_pos hc]
        simp only [cond_false, List.length_cons]
        omega
      · rw [if_neg hc]
        simp only [cond_false, List.length_cons]
        omega
    | true =>
      show (if c = '\n' then '\n' :: subCrlfGo false rest
            else if c = '\r' then '\n' :: subCrlfGo true rest
            else '\n' :: c :: subCrlfGo false rest).length ≤ _
      by_cases h1 : c = '\n'
      · rw [if_pos h1]
        simp only [cond_true, List.length_cons]
        omega
      · rw [if_neg h1]
        by_cases h2 : c = '\r'
        · rw [if_pos h2]
          simp only [cond_true, List.length_cons]
          omega
        · rw [if_neg h2]
          simp only [cond_true, List.length_cons]
          omega

theorem subCrlf_length_le (l : Line) : (subCrlf l).length ≤ l.length := by
  have h := subCrlfGo_length l false
  simpa using h

theorem collapseNlGo_length (l : Line) : ∀ run,
    (collapseNlGo run l).length ≤ l.length + min run 2 := by
  induction l with
  | nil => intro run; simp [collapseNlGo]
  | cons c rest ih =>
    intro run
    have h1 := ih (run + 1)
    have h0 := ih 0
    unfold collapseNlGo
    split_ifs <;>
      simp only [List.length_cons, List.length_append, List.length_replicate] <;> omega

theorem collapseNl3_length_le (l : Line) : (collapseNl3 l).length ≤ l.length := by
  have h := collapseNlGo_length l 0
  simpa using h

theorem cleanLine_length_le (a : Bool) (line : Line) :
    (cleanLine a line).length ≤ line.length := by
  have hs0le : (line.dropWhile (· = '　')).length ≤ line.length :=
    (List.dropWhile_suffix _).sublist.length_le
  set s0 := line.dropWhile (· = '　') with hs0def
  set x := s0.map (fun c => if c = '　' then ' ' else c) with hxdef
  have hx : x.length = s0.length := by rw [hxdef, List.length_map]
  have h2 : (collapseSpaces x).length ≤ x.length := collapseSpacesGo_length_le x false
  have h3 : (subSpaceCloser (collapseSpaces x)).length ≤ (collapseSpaces x).length :=
    subSpaceCloser_length_le _
  have h4 : (subOpenerSpace (subSpaceCloser (collapseSpaces x))).length ≤
      (subSpaceCloser (collapseSpaces x)).length := subOpenerSpaceGo_length_le _ false
  cases a with
  | true =>
    show (pyStrip (subPair isJp1 isJp1
      (subOpenerSpace (subSpaceCloser (collapseSpaces x))))).length ≤ line.length
    have h5 : (subPair isJp1 isJp1
        (subOpenerSpace (subSpaceCloser (collapseSpaces x)))).length ≤
        (subOpenerSpace (subSpaceCloser (collapseSpaces x))).length := subPair_length_le _ _ _
    have h6 := pyStrip_length_le
      (subPair isJp1 isJp1 (subOpenerSpace (subSpaceCloser (collapseSpaces x))))
    omega
  | false =>
    show (if false = false ∧ line.length - s0.length ≠ 0 then
            List.replicate (line.length - s0.length) '　' ++
              subOpenerSpace (subSpaceCloser (collapseSpaces x))
          else pyStrip (subOpenerSpace (subSpaceCloser (collapseSpaces x)))).length ≤
      line.length
    by_cases hind : line.length - s0.length ≠ 0
    · rw [if_pos ⟨rfl, hind⟩]
      simp only [List.length_append, List.length_replicate]
      omega
    · rw [if_neg (fun hcon => hind hcon.2)]
      have h6 := pyStrip_length_le (subOpenerSpace (subSpaceCloser (collapseSpaces x)))
      omega

theorem cleanText_length_le (t : Line) (a : Bool) : (cleanText t a).length ≤ t.length := by
  show (pyStrip (joinNl ((splitNl (collapseNl3 (subCrlf (joinNl ((splitNl
      ((t.filter (fun c => !isInvisible c)).map (fun c => if c = '\t' then ' ' else c))).map
        (cleanLine a)))))).map pyRstrip))).length ≤ t.length
  apply le_trans (pyStrip_length_le _)
  apply le_trans (joinNl_map_le_self pyRstrip pyRstrip_length_le _)
  apply le_trans (collapseNl3_length_le _)
  apply le_trans (subCrlf_length_le _)
  apply le_trans (joinNl_map_le_self (cleanLine a) (cleanLine_length_le a) _)
  rw [List.length_map]
  exact List.length_filter_le _ _

theorem rmsLine_length_le (l : Line) : (rmsLine l).length ≤ l.length := by
  show (if (pyStrip l).isEmpty then ([] : Line)
        else collapseSpaces (subPair isPyDigit unitChars.contains
          (subPair openers2.contains isJp2 (subPair isJp2 closers2.contains
            (subPair isJp1 isJp1 (pyStrip l)))))).length ≤ l.length
  by_cases h : (pyStrip l).isEmpty
  · rw [if_pos h]
    simp
  · rw [if_neg h]
    apply le_trans (collapseSpacesGo_length_le _ false)
    apply le_trans (subPair_length_le _ _ _)
    apply le_trans (subPair_length_le _ _ _)
    apply le_trans (subPair_length_le _ _ _)
    apply le_trans (subPair_length_le _ _ _)
    exact pyStrip_length_le l

theorem dedupBlankGo_sublist (ls : List Line) : ∀ b,
    List.Sublist (dedupBlankGo b ls) ls := by
  induction ls with
  | nil => intro b; simp [dedupBlankGo]
  | cons l rest ih =>
    intro b
    unfold dedupBlankGo
    split_ifs with h1 h2
    · exact (ih true).cons l
    · have hl : l = [] := by
        cases l with
        | nil => rfl
        | cons x xs => simp at h1
      rw [hl]
      exact (ih true).cons₂ []
    · exact (ih false).cons₂ l

theorem removeMeaninglessSpaces_length_le (t : Line) :
    (removeMeaninglessSpaces t).length ≤ t.length := by
  show (joinNl (dedupBlankGo false ((splitNl (t.map
      (fun c => if specialSpaces.contains c then ' ' else c))).map rmsLine))).length ≤ t.length
  apply le_trans (joinCh_sublist_length_le '\n' (dedupBlankGo_sublist _ false))
  apply le_trans (joinNl_map_le_self rmsLine rmsLine_length_le _)
  rw [List.length_map]

/-- C2 (counterexample): neither pass is idempotent.  The
non-overlapping scan of the Japanese inter-character space pattern merges
`あ` and `い` of `"あ い う"` but resumes after `い`, leaving `い う`
untouched, so a second application removes one more space. -/
theorem whitespace_passes_not_idempotent :
    removeMeaninglessSpaces "あ い う".toList = "あい う".toList ∧
    removeMeaninglessSpaces (removeMeaninglessSpaces "あ い う".toList) ≠
      removeMeaninglessSpaces "あ い う".toList ∧
    cleanText "あ い う".toList true = "あい う".toList ∧
    cleanText (cleanText "あ い う".toList true) true ≠ cleanText "あ い う".toList true := by
  decide

/-- C2 (amended): the passes are not idempotent (see the counterexample:
a second application can delete further spaces between Japanese
characters); what does hold universally is that each application never
increases the length of the text, so iterating them is monotone. -/
theorem whitespace_passes_length_nonincreasing (t : Line) (aggressive : Bool) :
    (cleanText t aggressive).length ≤ t.length ∧
    (removeMeaninglessSpaces t).length ≤ t.length :=
  ⟨cleanText_length_le t aggressive, removeMeaninglessSpaces_length_le t⟩

/-! ## Post-processing and merge-loop lemmas (C6, C7) -/

theorem pyStrip_sublist (l : Line) : List.Sublist (pyStrip l) l :=
  ((pyRstrip_prefix_self (pyLstrip l)).sublist).trans (pyLstrip_suffix l).sublist

theorem pyStrip_append_ne (t u : Line) (h : ¬ pyStrip t = []) :
    ¬ pyStrip (t ++ u) = [] := by
  apply pyStrip_ne_nil_of_any
  have ha := pyStrip_any_nonws t h
  rw [List.any_eq_true] at ha ⊢
  obtain ⟨c, hc, hcw⟩ := ha
  exact ⟨c, List.mem_append_left _ ((pyStrip_sublist t).mem hc), hcw⟩

theorem postProcess_filter_eq (chunks : List Line) :
    (postProcess chunks).filter (fun l => !l.isEmpty) =
      (chunks.map pyStrip).filter (fun l => !l.isEmpty) := by
  induction chunks with
  | nil => rfl
  | cons ch rest ih =>
    show ((if (pyStrip ch).isEmpty then postProcess rest
           else pyStrip ch ::
             ((if (pyStrip ch).getLast? = some '。' ∧ 30 < (pyStrip ch).length
               then [[]] else []) ++ postProcess rest))).filter (fun l => !l.isEmpty) =
      ((pyStrip ch :: rest.map pyStrip).filter (fun l => !l.isEmpty))
    by_cases h : (pyStrip ch).isEmpty
    · rw [if_pos h]
      simp only [List.filter_cons, h, Bool.not_true, if_false]
      exact ih
    · rw [if_neg h]
      by_cases hs : (pyStrip ch).getLast? = some '。' ∧ 30 < (pyStrip ch).length
      · rw [if_pos hs]
        simp only [List.filter_cons, List.filter_append, h, Bool.not_false, if_true,
          List.filter_cons, List.isEmpty_nil, Bool.not_true, if_false, List.filter_nil,
          List.nil_append]
        simp [ih]
      · rw [if_neg hs]
        simp only [List.filter_cons, h, Bool.not_false, if_true, List.nil_append]
        rw [ih]

theorem postProcess_mem_strip (chunks : List Line) :
    ∀ l ∈ postProcess chunks, pyStrip l = l := by
  induction chunks with
  | nil => intro l hl; cases hl
  | cons ch rest ih =>
    intro l hl
    by_cases h : (pyStrip ch).isEmpty
    · have : postProcess (ch :: rest) = postProcess rest := by
        show (if (pyStrip ch).isEmpty then postProcess rest else _) = _
        rw [if_pos h]
      rw [this] at hl
      exact ih l hl
    · have : postProcess (ch :: rest) = pyStrip ch ::
          ((if (pyStrip ch).getLast? = some '。' ∧ 30 < (pyStrip ch).length
            then [[]] else []) ++ postProcess rest) := by
        show (if (pyStrip ch).isEmpty then postProcess rest else _) = _
        rw [if_neg h]
      rw [this] at hl
      rcases List.mem_cons.mp hl with rfl | hl2
      · exact pyStrip_idem ch
      · rcases List.mem_append.mp hl2 with hl3 | hl4
        · by_cases hs : (pyStrip ch).getLast? = some '。' ∧ 30 < (pyStrip ch).length
          · rw [if_pos hs] at hl3
            rcases List.mem_singleton.mp hl3 with rfl
            rfl
          · rw [if_neg hs] at hl3
            cases hl3
        · exact ih l hl4

theorem strip_mem_postProcess {chunks : List Line} {ch : Line} (hch : ch ∈ chunks)
    (h : ¬ (pyStrip ch).isEmpty = true) : pyStrip ch ∈ postProcess chunks := by
  induction chunks with
  | nil => cases hch
  | cons x rest ih =>
    rcases List.mem_cons.mp hch with rfl | hmem
    · have heq : postProcess (ch :: rest) = pyStrip ch ::
          ((if (pyStrip ch).getLast? = some '。' ∧ 30 < (pyStrip ch).length
            then [[]] else []) ++ postProcess rest) := by
        show (if (pyStrip ch).isEmpty then postProcess rest else _) = _
        rw [if_neg h]
      rw [heq]
      exact List.mem_cons_self _ _
    · by_cases hx : (pyStrip x).isEmpty
      · have heq : postProcess (x :: rest) = postProcess rest := by
          show (if (pyStrip x).isEmpty then postProcess rest else _) = _
          rw [if_pos hx]
        rw [heq]
        exact ih hmem
      · have heq : postProcess (x :: rest) = pyStrip x ::
            ((if (pyStrip x).getLast? = some '。' ∧ 30 < (pyStrip x).length
              then [[]] else []) ++ postProcess rest) := by
          show (if (pyStrip x).isEmpty then postProcess rest else _) = _
          rw [if_neg hx]
        rw [heq]
        exact List.mem_cons_of_mem _ (List.mem_append_right _ (ih hmem))

theorem mergeGo_strip_ne (lines : List Line) : ∀ temp : Line,
    (temp = [] ∨ ¬ pyStrip temp = []) → ∀ l ∈ mergeGo temp lines, ¬ pyStrip l = [] := by
  induction lines with
  | nil =>
    intro temp htemp l hl
    by_cases ht : temp.isEmpty
    · have : mergeGo temp [] = [] := by
        show (if temp.isEmpty then ([] : List Line) else [temp]) = []
        rw [if_pos ht]
      rw [this] at hl
      cases hl
    · have : mergeGo temp [] = [temp] := by
        show (if temp.isEmpty then ([] : List Line) else [temp]) = [temp]
        rw [if_neg ht]
      rw [this] at hl
      rcases List.mem_singleton.mp hl with rfl
      rcases htemp with h0 | h0
      · exfalso
        rw [h0] at ht
        exact ht rfl
      · exact h0
  | cons line rest ih =>
    intro temp htemp l hl
    by_cases hc : (pyStrip line).length < 10 ∧ ¬ temp.isEmpty = true
    · have heq : mergeGo temp (line :: rest) = mergeGo (temp ++ pyStrip line) rest := by
        show (if (pyStrip line).length < 10 ∧ ¬ temp.isEmpty = true
              then mergeGo (temp ++ pyStrip line) rest else _) = _
        rw [if_pos hc]
      rw [heq] at hl
      have htemp' : temp ++ pyStrip line = [] ∨ ¬ pyStrip (temp ++ pyStrip line) = [] := by
        rcases htemp with h0 | h0
        · exact absurd (by simp [h0]) hc.2
        · exact Or.inr (pyStrip_append_ne temp _ h0)
      exact ih _ htemp' l hl
    · have heq : mergeGo temp (line :: rest) =
          (if temp.isEmpty then [] else [temp]) ++ mergeGo (pyStrip line) rest := by
        show (if (pyStrip line).length < 10 ∧ ¬ temp.isEmpty = true
              then mergeGo (temp ++ pyStrip line) rest else _) = _
        rw [if_neg hc]
      rw [heq] at hl
      have hnext : pyStrip line = [] ∨ ¬ pyStrip (pyStrip line) = [] := by
        by_cases h0 : pyStrip line = []
        · exact Or.inl h0
        · rw [pyStrip_idem]
          exact Or.inr h0
      rcases List.mem_append.mp hl with hl2 | hl2
      · by_cases ht : temp.isEmpty
        · rw [if_pos ht] at hl2
          cases hl2
        · rw [if_neg ht] at hl2
          rcases List.mem_singleton.mp hl2 with rfl
          rcases htemp with h0 | h0
          · exact absurd (by simp [h0]) ht
          · exact h0
      · exact ih _ hnext l hl2

theorem mergeGo_ge_of_temp_ge (lines : List Line) : ∀ temp : Line, 10 ≤ temp.length →
    ∀ l ∈ mergeGo temp lines, 10 ≤ l.length := by
  induction lines with
  | nil =>
    intro temp ht l hl
    have hne : temp.isEmpty = false := by
      cases temp with
      | nil => simp at ht
      | cons a t => rfl
    have : mergeGo temp [] = [temp] := by
      show (if temp.isEmpty then ([] : List Line) else [temp]) = [temp]
      rw [hne]
      rfl
    rw [this] at hl
    rcases List.mem_singleton.mp hl with rfl
    exact ht
  | cons line rest ih =>
    intro temp ht l hl
    have hne : temp.isEmpty = false := by
      cases temp with
      | nil => simp at ht
      | cons a t => rfl
    by_cases hc : (pyStrip line).length < 10 ∧ ¬ temp.isEmpty = true
    · have heq : mergeGo temp (line :: rest) = mergeGo (temp ++ pyStrip line) rest := by
        show (if (pyStrip line).length < 10 ∧ ¬ temp.isEmpty = true
              then mergeGo (temp ++ pyStrip line) rest else _) = _
        rw [if_pos hc]
      rw [heq] at hl
      have : 10 ≤ (temp ++ pyStrip line).length := by
        rw [List.length_append]
        omega
      exact ih _ this l hl
    · have heq : mergeGo temp (line :: rest) =
          (if temp.isEmpty then [] else [temp]) ++ mergeGo (pyStrip line) rest := by
        show (if (pyStrip line).length < 10 ∧ ¬ temp.isEmpty = true
              then mergeGo (temp ++ pyStrip line) rest else _) = _
        rw [if_neg hc]
      rw [heq, hne] at hl
      simp only [Bool.false_eq_true, if_false, List.singleton_append] at hl
      rcases List.mem_cons.mp hl with rfl | hl2
      · exact ht
      · have hge : 10 ≤ (pyStrip line).length := by
          by_contra hlt
          exact hc ⟨by omega, by simp [hne]⟩
        exact ih _ hge l hl2

theorem mergeGo_tail_ge (lines : List Line) : ∀ temp : Line,
    ∀ l ∈ (mergeGo temp lines).tail, 10 ≤ l.length := by
  induction lines with
  | nil =>
    intro temp l hl
    by_cases ht : temp.isEmpty
    · have : mergeGo temp [] = [] := by
        show (if temp.isEmpty then ([] : List Line) else [temp]) = []
        rw [if_pos ht]
      rw [this] at hl
      cases hl
    · have : mergeGo temp [] = [temp] := by
        show (if temp.isEmpty then ([] : List Line) else [temp]) = [temp]
        rw [if_neg ht]
      rw [this] at hl
      cases hl
  | cons line rest ih =>
    intro temp l hl
    by_cases hc : (pyStrip line).length < 10 ∧ ¬ temp.isEmpty = true
    · have heq : mergeGo temp (line :: rest) = mergeGo (temp ++ pyStrip line) rest := by
        show (if (pyStrip line).length < 10 ∧ ¬ temp.isEmpty = true
              then mergeGo (temp ++ pyStrip line) rest else _) = _
        rw [if_pos hc]
      rw [heq] at hl
      exact ih _ l hl
    · have heq : mergeGo temp (line :: rest) =
          (if temp.isEmpty then [] else [temp]) ++ mergeGo (pyStrip line) rest := by
        show (if (pyStrip line).length < 10 ∧ ¬ temp.isEmpty = true
              then mergeGo (temp ++ pyStrip line) rest else _) = _
        rw [if_neg hc]
      rw [heq] at hl
      by_cases ht : temp.isEmpty
      · rw [if_pos ht] at hl
        rw [List.nil_append] at hl
        exact ih _ l hl
      · rw [if_neg ht] at hl
        rw [List.singleton_append] at hl
        rw [List.tail_cons] at hl
        have hge : 10 ≤ (pyStrip line).length := by
          by_contra hlt
          exact hc ⟨by omega, ht⟩
        exact mergeGo_ge_of_temp_ge rest (pyStrip line) hge l hl

/-- C6 (counterexample): the chunk property does not extend to every
segmentation strategy.  In `method3_morphological` with the analyzer
available, a sentence-final token whose part of speech is 記号 both
triggers the length flush (`text_formatter.py:299-301`, resetting
`current_line` to the empty string) and then the unconditional
sentence-end append (`text_formatter.py:304-305`), which appends the
just-reset empty `current_line` — an empty chunk is emitted, not
dropped. -/
theorem morphological_strategy_emits_empty_chunk :
    m3Loop 40 [] []
        [⟨List.replicate 39 'あ', "名詞,一般".toList⟩, ⟨['。'], "記号,句点".toList⟩] =
      [List.replicate 39 'あ' ++ ['。'], []] ∧
    ([] : Line) ∈ m3Loop 40 [] []
        [⟨List.replicate 39 'あ', "名詞,一般".toList⟩, ⟨['。'], "記号,句点".toList⟩] ∧
    pyStrip ([] : Line) = [] ∧
    (method3Morphological
        (some (fun _ =>
          [⟨List.replicate 39 'あ', "名詞,一般".toList⟩, ⟨['。'], "記号,句点".toList⟩]))
        (List.replicate 39 'あ' ++ ['。']) 40).1 =
      (List.replicate 39 'あ' ++ ['。']) ++ ['\n'] := by decide

/-- C6 (amended): the drop-empty-chunks property holds for the strategies
built on the cited post-processing — the punctuation cascade (and with it
the hybrid strategy and the analyzer-unavailable morphological fallback) —
and for the clause-boundary cascade, but not for the morphological walk
with the analyzer available (see the counterexample).  (1) The
non-blank entries of `method1_punctuation_advanced`'s formatted output are
exactly the stripped chunks that are non-empty after trimming, in order —
chunks empty after trimming are dropped (blank entries are the inserted
paragraph separators, not chunks).  (2) Every emitted entry is already
trimmed.  (3) A chunk ending in sentence punctuation (`。！？` or the comma
kept by the comma cascade) is emitted with that punctuation still trailing.
(4) In the clause-boundary strategy (`method4_semantic_breaks`) every
emitted line is non-empty after trimming. -/
theorem segment_chunk_postprocessing (chunks : List Line) :
    ((postProcess chunks).filter (fun l => !l.isEmpty) =
      (chunks.map pyStrip).filter (fun l => !l.isEmpty)) ∧
    (∀ l ∈ postProcess chunks, pyStrip l = l) ∧
    (∀ ch ∈ chunks, ∀ c : Char, c ∈ (['。', '！', '？', '、'] : List Char) →
      ch.getLast? = some c →
      pyStrip ch ∈ postProcess chunks ∧ (pyStrip ch).getLast? = some c) ∧
    (∀ text : Line, ∀ l ∈ method4Lines text, ¬ pyStrip l = []) := by
  refine ⟨postProcess_filter_eq chunks, postProcess_mem_strip chunks, ?_, ?_⟩
  · intro ch hch c hc hlast
    have hcw : isPyWs c = false := by
      simp only [List.mem_cons, List.not_mem_nil, or_false] at hc
      rcases hc with rfl | rfl | rfl | rfl <;> rfl
    have hret := getLast?_pyStrip ch c hcw hlast
    have hne : ¬ (pyStrip ch).isEmpty = true := by
      intro he
      have : pyStrip ch = [] := by
        cases hx : pyStrip ch
        · rfl
        · rw [hx] at he; cases he
      rw [this] at hret
      cases hret
    exact ⟨strip_mem_postProcess hch hne, hret⟩
  · intro text l hl
    have hl2 : l ∈ mergeGo [] (splitNl (collapseNl3 (p4Sub
        (subAlts breakAlts3 (subAlts breakAlts2 (subAlts breakAlts1 text)))))) := hl
    exact mergeGo_strip_ne _ [] (Or.inl rfl) l hl2

/-- Witness for C6 at a concrete chunk list: a padded chunk is emitted
stripped with its `。` retained. -/
theorem segment_chunk_postprocessing_witness :
    pyStrip " 短い文。".toList ∈ postProcess [" 短い文。".toList, "   ".toList] ∧
    (pyStrip " 短い文。".toList).getLast? = some '。' :=
  (segment_chunk_postprocessing [" 短い文。".toList, "   ".toList]).2.2.1
    " 短い文。".toList (by decide) '。' (by decide) (by decide)

/-- C7 (counterexample): `method4_semantic_breaks` does not merge a short
line into the *following* line.  A two-character first line survives in the
output even though a following line exists to absorb it — the merge loop
only appends short lines to the *preceding* accumulated line. -/
theorem method4_short_first_line_survives :
    method4Lines "あい\nこれは十分に長い行のサンプルです".toList =
      ["あい".toList, "これは十分に長い行のサンプルです".toList] ∧
    ("あい".toList).length < 10 ∧
    1 < (method4Lines "あい\nこれは十分に長い行のサンプルです".toList).length := by
  decide

/-- C7 (amended): the merge loop of `method4_semantic_breaks` merges short
lines into the preceding accumulated line, so only the *first* output line
can be shorter than ten characters: every output line after the first has
length at least ten. -/
theorem method4_tail_lines_ge_ten (text : Line) :
    ∀ l ∈ (method4Lines text).tail, 10 ≤ l.length := by
  intro l hl
  have hl2 : l ∈ (mergeGo [] (splitNl (collapseNl3 (p4Sub
      (subAlts breakAlts3 (subAlts breakAlts2 (subAlts breakAlts1 text))))))).tail := hl
  exact mergeGo_tail_ge _ [] l hl2

/-- Witness for C7's amended theorem on the counterexample text: the second
output line has length sixteen. -/
theorem method4_tail_lines_ge_ten_witness :
    10 ≤ ("これは十分に長い行のサンプルです".toList).length :=
  method4_tail_lines_ge_ten "あい\nこれは十分に長い行のサンプルです".toList
    "これは十分に長い行のサンプルです".toList (by decide)

/-- C8: the 41-character sentence with two commas, under the punctuation
cascade with `max_length = 20`, is split at the comma boundaries into three
chunks, each at most 20 characters, each comma kept on its preceding chunk,
and the final chunk retains the closing `。`. -/
theorem punctuation_cascade_comma_split_example :
    postProcess (m1Chunks
        "これはとても長い文章です、句読点がたくさんあります、読みやすくする必要があります。".toList 20) =
      ["これはとても長い文章です、".toList, "句読点がたくさんあります、".toList,
       "読みやすくする必要があります。".toList] ∧
    (postProcess (m1Chunks
        "これはとても長い文章です、句読点がたくさんあります、読みやすくする必要があります。".toList 20)).all
      (fun l => l.length ≤ 20) = true ∧
    method1PunctuationAdvanced
        "これはとても長い文章です、句読点がたくさんあります、読みやすくする必要があります。".toList 20 =
      "これはとても長い文章です、\n句読点がたくさんあります、\n読みやすくする必要があります。".toList := by
  decide

/-! ## Keyword containment and the page cleaner (C10) -/

theorem containsSub_singleton {c : Char} : ∀ {l : Line}, c ∈ l → containsSub [c] l = true := by
  intro l h
  induction l with
  | nil => cases h
  | cons a t ih =>
    show ([c].isPrefixOf (a :: t) || containsSub [c] t) = true
    rcases List.mem_cons.mp h with rfl | h2
    · have hp : [c].isPrefixOf (c :: t) = true := by
        show ((c == c) && List.isPrefixOf [] t) = true
        simp
      rw [hp]
      rfl
    · rw [ih h2]
      simp

theorem isSidebarTitle_strip (l : Line) : isSidebarTitle (pyStrip l) = isSidebarTitle l := by
  unfold isSidebarTitle
  rw [pyStrip_idem]

/-- One unfolding step of the `clean_extracted_text` loop. -/
theorem cetGo_cons (pats : List Line) (acc : List Line) (prev line : Line)
    (rest : List Line) :
    cetGo pats acc prev (line :: rest) =
      (if (pyStrip line).isEmpty then
        (if (match acc.getLast? with
             | some last => !(pyStrip last).isEmpty
             | none => false)
         then cetGo pats (acc ++ [[]]) prev rest else cetGo pats acc prev rest)
      else if ("PDFファイル:".toList.isPrefixOf (pyStrip line) ∨
               "ページ番号:".toList.isPrefixOf (pyStrip line) ∨
               (List.replicate 10 '=').isPrefixOf (pyStrip line)) then
        cetGo pats acc prev rest
      else if pats.contains (pyStrip line) then cetGo pats acc prev rest
      else if isSidebarTitle (pyStrip line) then cetGo pats acc prev rest
      else if ((pyStrip line).length < 50 ∧ pyStrip line = pyStrip prev) then
        cetGo pats acc prev rest
      else cetGo pats (acc ++ [line]) line rest) := rfl

theorem cetGo_sidebar_false (pats : List Line) (rem : List Line) :
    ∀ (acc : List Line) (prev : Line), (∀ x ∈ acc, isSidebarTitle x = false) →
    ∀ l ∈ cetGo pats acc prev rem, isSidebarTitle l = false := by
  induction rem with
  | nil => intro acc prev hacc l hl; exact hacc l hl
  | cons line rest ih =>
    intro acc prev hacc l hl
    rw [cetGo_cons] at hl
    split_ifs at hl with h1 h2 h3 h4 h5 h6
    · refine ih _ _ ?_ l hl
      intro x hx
      rcases List.mem_append.mp hx with hx1 | hx2
      · exact hacc x hx1
      · rcases List.mem_singleton.mp hx2 with rfl
        decide
    · exact ih _ _ hacc l hl
    · exact ih _ _ hacc l hl
    · exact ih _ _ hacc l hl
    · exact ih _ _ hacc l hl
    · exact ih _ _ hacc l hl
    · refine ih _ _ ?_ l hl
      intro x hx
      rcases List.mem_append.mp hx with hx1 | hx2
      · exact hacc x hx1
      · rcases List.mem_singleton.mp hx2 with rfl
        rw [← isSidebarTitle_strip]
        simp only [Bool.not_eq_true] at h5
        exact h5

theorem collapseBlank_sidebar_false (ls : List Line) :
    ∀ b : Bool, (∀ x ∈ ls, isSidebarTitle x = false) →
    ∀ l ∈ collapseBlankStripGo b ls, isSidebarTitle l = false := by
  induction ls with
  | nil => intro b _ l hl; cases hl
  | cons x rest ih =>
    intro b h l hl
    have heq : collapseBlankStripGo b (x :: rest) =
        (if (pyStrip x).isEmpty then
          (if b then collapseBlankStripGo true rest
           else [] :: collapseBlankStripGo true rest)
         else x :: collapseBlankStripGo false rest) := rfl
    rw [heq] at hl
    split_ifs at hl with h1 h2
    · exact ih true (fun y hy => h y (List.mem_cons_of_mem _ hy)) l hl
    · rcases List.mem_cons.mp hl with rfl | hl2
      · decide
      · exact ih true (fun y hy => h y (List.mem_cons_of_mem _ hy)) l hl2
    · rcases List.mem_cons.mp hl with rfl | hl2
      · exact h l (List.mem_cons_self _ _)
      · exact ih false (fun y hy => h y (List.mem_cons_of_mem _ hy)) l hl2

/-- C10 (counterexample): the claim's keyword set is wrong for
`is_chapter_title`, whose keyword list lacks `第`: a short line containing
`第` but none of 章/節/部 (and matching no chapter regex) is *not*
classified structural by it. -/
theorem chapter_title_dai_only_not_structural :
    (pyStrip "第九十".toList).length < 30 ∧
    containsSub ['第'] (pyStrip "第九十".toList) = true ∧
    isChapterTitle "第九十".toList = false := by decide

/-- C10 (amended): the keyword rule is substring containment of single
characters with the keyword sets the code actually uses: any line of
stripped length at most 30 containing one of 第章節部編項条款号 is
structural for `is_sidebar_title`; any line of stripped length under 30
containing one of 章節部 is structural for `is_chapter_title` (第 alone is
not in its keyword list); and the page cleaner `clean_extracted_text`
never emits a line classified structural by `is_sidebar_title`. -/
theorem keyword_containment_classification :
    (∀ line : Line, (pyStrip line).length ≤ 30 →
      (∃ c ∈ (['第', '章', '節', '部', '編', '項', '条', '款', '号'] : List Char),
        c ∈ pyStrip line) → isSidebarTitle line = true) ∧
    (∀ line : Line, (pyStrip line).length < 30 →
      (∃ c ∈ (['章', '節', '部'] : List Char), c ∈ pyStrip line) →
      isChapterTitle line = true) ∧
    (∀ (text : Line) (pats : List Line), ∀ l ∈ cleanExtractedLines text pats,
      isSidebarTitle l = false) := by
  refine ⟨?_, ?_, ?_⟩
  · intro line hlen hex
    obtain ⟨c, hcmem, hcl⟩ := hex
    have hany : sidebarKeywords.any (fun k => containsSub k (pyStrip line)) = true := by
      rw [List.any_eq_true]
      refine ⟨[c], ?_, containsSub_singleton hcl⟩
      simp only [List.mem_cons, List.not_mem_nil, or_false] at hcmem
      rcases hcmem with rfl | rfl | rfl | rfl | rfl | rfl | rfl | rfl | rfl <;> decide
    unfold isSidebarTitle
    simp [hlen, hany]
  · intro line hlen hex
    obtain ⟨c, hcmem, hcl⟩ := hex
    have hany : chapterKeywords.any (fun k => containsSub k (pyStrip line)) = true := by
      rw [List.any_eq_true]
      refine ⟨[c], ?_, containsSub_singleton hcl⟩
      simp only [List.mem_cons, List.not_mem_nil, or_false] at hcmem
      rcases hcmem with rfl | rfl | rfl <;> decide
    unfold isChapterTitle
    by_cases hp : (chapterPatterns.any fun m => m (pyStrip line)) = true
    · simp [hp]
    · simp [hp, hlen, hany]
  · intro text pats l hl
    have h1 : ∀ x ∈ cetGo pats [] [] (splitNl text), isSidebarTitle x = false :=
      cetGo_sidebar_false pats (splitNl text) [] [] (by intro x hx; cases hx)
    exact collapseBlank_sidebar_false _ false h1 l hl

/-- Witness for C10's amended theorem at concrete lines: `第3章` via the
sidebar rule, `ああ章` via the chapter rule, and a concrete cleaned page
whose surviving body line is not structural. -/
theorem keyword_containment_classification_witness :
    isSidebarTitle "第3章".toList = true ∧
    isChapterTitle "ああ章".toList = true ∧
    isSidebarTitle "ほんぶんのながいぎょうです".toList = false :=
  ⟨keyword_containment_classification.1 "第3章".toList (by decide)
      ⟨'第', by decide, by decide⟩,
   keyword_containment_classification.2.1 "ああ章".toList (by decide)
      ⟨'章', by decide, by decide⟩,
   keyword_containment_classification.2.2 "ほんぶんのながいぎょうです".toList []
      "ほんぶんのながいぎょうです".toList (by decide)⟩
